import Mathlib

/-!
Verification development for the VHD (Virtual Hard Disk) storage engine and
chain cleaner of this repository.

The engine side is a shallow embedding of
`packages/vhd-lib/src/Vhd/VhdFile.js` (and the shared parts of
`packages/vhd-lib/src/Vhd/VhdAbstract.js`): JavaScript `Buffer`s become
`List Nat` of byte values, the file on disk becomes an explicit
`DiskFile` (a byte-indexed store plus a size), asynchronous methods become
pure functions threading `(VhdState, DiskFile)`, and failures
(thrown errors, failed `assert`s, Node range errors) become `Except Err`.

Helpers that the sources import from modules not present in the snapshot
(`_constants`, `_utils`, `_bitmap`, `_structs`, `_getFirstAndLastBlocks`)
are modelled from the specification and are marked as such in their doc
comments.

The cleaner side is a shallow embedding of the `cleanVm` module: the
byte handler is abstracted into a record of pure query functions, and all
mutating operations (`unlink`, `rename`, `writeFile`, VHD merges) are
recorded as an explicit list of effects.
-/

namespace Vhd

/-- Error kinds: thrown `Error`s, failed `assert`s, Node `ERR_OUT_OF_RANGE`
range errors from `Buffer.writeUInt32BE`, and a stack overflow for unbounded
recursion. `blockAbsent` is the `no such block` error of `readBlock`. -/
inductive Err where
  | blockAbsent : Err
  | assertion : Err
  | outOfRange : Err
  | badBitmapLength : Err
  | stackOverflow : Err
deriving DecidableEq, Repr

/-- Byte store of a single file: contents as a function from byte address to
byte value, together with the current file size (`handler.getSize`). -/
structure DiskFile where
  data : Nat → Nat
  size : Nat

/-- Positional write of a byte list, extending the file size as Node does
when writing past the end of the file. -/
def fileWrite (d : DiskFile) (off : Nat) (bs : List Nat) : DiskFile :=
  { data := fun a => if off ≤ a ∧ a < off + bs.length then bs.getD (a - off) 0 else d.data a
    size := max d.size (off + bs.length) }

/-- Read `n` bytes starting at byte address `off`. -/
def readBytes (d : DiskFile) (off n : Nat) : List Nat :=
  (List.range n).map (fun k => d.data (off + k))

/-- Embedding of `VhdFile._read`: `handler.read` fills the provided buffer
and the method asserts `bytesRead == n`, which holds exactly when the
requested range lies inside the file (or is empty). -/
def fileRead (d : DiskFile) (start n : Nat) : Except Err (List Nat) :=
  if start + n ≤ d.size ∨ n = 0 then Except.ok (readBytes d start n) else Except.error Err.assertion

/-- Slice of a byte list, with `Buffer.slice` clamping semantics. -/
def listSlice (l : List Nat) (a b : Nat) : List Nat :=
  (l.drop a).take (b - a)

/-- Splice `bs` into `l` at byte index `i`, truncating at the end of `l`
(the semantics of `Buffer.copy` into a fixed-size target). -/
def listWriteBytes (l : List Nat) (i : Nat) (bs : List Nat) : List Nat :=
  (List.range l.length).map (fun a => if i ≤ a ∧ a < i + bs.length then bs.getD (a - i) 0 else l.getD a 0)

/-- Big-endian 32-bit read at byte index `i` of a buffer
(`Buffer.readUInt32BE`). -/
def beU32 (l : List Nat) (i : Nat) : Nat :=
  l.getD i 0 * 2 ^ 24 + l.getD (i + 1) 0 * 2 ^ 16 + l.getD (i + 2) 0 * 2 ^ 8 + l.getD (i + 3) 0

/-- Big-endian byte representation of a 32-bit value. -/
def beBytes32 (v : Nat) : List Nat :=
  [v / 2 ^ 24 % 256, v / 2 ^ 16 % 256, v / 2 ^ 8 % 256, v % 256]

/-- Big-endian byte representation of a 64-bit value. -/
def beBytes64 (v : Nat) : List Nat :=
  [v / 2 ^ 56 % 256, v / 2 ^ 48 % 256, v / 2 ^ 40 % 256, v / 2 ^ 32 % 256] ++ beBytes32 (v % 2 ^ 32)

/-- Modelled from the spec: `SECTOR_SIZE` of `_constants` (512). -/
def SECTOR_SIZE : Nat := 512

/-- Modelled from the spec: `FOOTER_SIZE` of `_constants` (512). -/
def FOOTER_SIZE : Nat := 512

/-- Modelled from the spec: `HEADER_SIZE` of `_constants` (1024). -/
def HEADER_SIZE : Nat := 1024

/-- Modelled from the spec: `BLOCK_UNUSED` of `_constants`
(0xFFFFFFFF, the sentinel for an unallocated BAT slot). -/
def BLOCK_UNUSED : Nat := 4294967295

/-- Modelled from the spec: `PLATFORM_NONE` of `_constants` (0). -/
def PLATFORM_NONE : Nat := 0

/-- Modelled from the spec: `sectorsToBytes` of `Vhd/_utils`
(multiply a sector count by 512). -/
def sectorsToBytes (s : Nat) : Nat := s * SECTOR_SIZE

/-- Modelled from the spec: `sectorsRoundUpNoZero` of `Vhd/_utils` —
`ceil(bytes / 512)` rounded up to at least 1
(spec: `sectorsOfBitmap = ceil(sectorsPerBlock / 8 / 512)` rounded up to
at least 1 sector). -/
def sectorsRoundUpNoZero (bytes : Nat) : Nat := max 1 ((bytes + 511) / 512)

/-- Modelled from the spec: `computeBatSize` of `Vhd/_utils` —
`batSize = max(1, ceil(maxTableEntries * 4 / 512)) * 512`. -/
def computeBatSize (entries : Nat) : Nat := sectorsToBytes (sectorsRoundUpNoZero (entries * 4))

/-- Modelled from the spec: `test` of `_bitmap` — sector `i`'s presence bit
is byte `i >> 3`, mask `1 << (7 - (i & 7))` (MSB-first). -/
def bitmapTest (buf : List Nat) (i : Nat) : Bool :=
  Nat.testBit (buf.getD (i / 8) 0) (7 - i % 8)

/-- Modelled from the spec: `set` of `_bitmap` — OR the MSB-first mask of
sector `i` into byte `i >> 3` (an out-of-range byte index is a no-op, as
indexed assignment past the end of a `Buffer` is ignored). -/
def bitmapSet (buf : List Nat) (i : Nat) : List Nat :=
  buf.set (i / 8) (buf.getD (i / 8) 0 ||| 2 ^ (7 - i % 8))

/-- Parent locator entry of the VHD header (the three fields this core
reads, plus the data length). -/
structure LocatorEntry where
  platformCode : Nat
  platformDataSpace : Nat
  platformDataLength : Nat
  platformDataOffset : Nat
deriving DecidableEq, Repr

/-- The all-zero locator entry (the default for an out-of-range index of
the 8-entry locator array). -/
def zeroLocator : LocatorEntry :=
  { platformCode := 0, platformDataSpace := 0, platformDataLength := 0, platformDataOffset := 0 }

/-- The header fields this core reads and writes. -/
structure VhdHeader where
  tableOffset : Nat
  maxTableEntries : Nat
  blockSize : Nat
  headerVersion : Nat
  checksum : Nat
  parentLocatorEntry : List LocatorEntry
deriving DecidableEq, Repr

/-- The footer fields this core reads and writes. -/
structure VhdFooter where
  currentSize : Nat
  originalSize : Nat
  diskType : Nat
  checksum : Nat
deriving DecidableEq, Repr

/-- In-memory state of a `VhdFile`: the parsed header and footer plus the
in-memory BAT buffer (`this.blockTable`). -/
structure VhdState where
  header : VhdHeader
  footer : VhdFooter
  blockTable : List Nat
deriving Repr

/-- Geometry derived on header assignment:
`sectorsPerBlock = blockSize / 512`. -/
def sectorsPerBlock (h : VhdHeader) : Nat := h.blockSize / SECTOR_SIZE

/-- Geometry: `sectorsOfBitmap = sectorsRoundUpNoZero(sectorsPerBlock >> 3)`. -/
def sectorsOfBitmap (h : VhdHeader) : Nat := sectorsRoundUpNoZero (sectorsPerBlock h / 8)

/-- Geometry: `fullBlockSize = sectorsToBytes(sectorsOfBitmap + sectorsPerBlock)`. -/
def fullBlockSize (h : VhdHeader) : Nat := sectorsToBytes (sectorsOfBitmap h + sectorsPerBlock h)

/-- Geometry: `bitmapSize = sectorsToBytes(sectorsOfBitmap)`. -/
def bitmapSize (h : VhdHeader) : Nat := sectorsToBytes (sectorsOfBitmap h)

/-- The `batSize` getter: `computeBatSize(header.maxTableEntries)`. -/
def batSize (h : VhdHeader) : Nat := computeBatSize h.maxTableEntries

/-- Embedding of `VhdAbstract._getBatEntry`: big-endian u32 at byte `4 * id`
of the in-memory BAT, or `BLOCK_UNUSED` when the index lies past the
buffer. -/
def getBatEntry (blockTable : List Nat) (blockId : Nat) : Nat :=
  if blockId * 4 < blockTable.length then beU32 blockTable (blockId * 4) else BLOCK_UNUSED

/-- Embedding of `VhdFile.containsBlock`:
`this._getBatEntry(id) !== BLOCK_UNUSED`. -/
def containsBlock (s : VhdState) (blockId : Nat) : Bool :=
  getBatEntry s.blockTable blockId ≠ BLOCK_UNUSED

/-- Embedding of `VhdFile.readBlockAllocationTable`: read exactly
`maxTableEntries * 4` bytes at `tableOffset` into the in-memory BAT. -/
def readBlockAllocationTable (s : VhdState) (d : DiskFile) : Except Err VhdState :=
  (fileRead d s.header.tableOffset (s.header.maxTableEntries * 4)).map
    (fun bt => { s with blockTable := bt })

/-- Result of `readBlock`: `{id, bitmap}` in bitmap-only mode,
`{id, bitmap, data, buffer}` otherwise. -/
structure BlockData where
  id : Nat
  bitmap : List Nat
  data : Option (List Nat)
  buffer : Option (List Nat)
deriving DecidableEq, Repr

/-- Embedding of `VhdFile.readBlock`: fails with `no such block` when the
BAT slot is `BLOCK_UNUSED`, otherwise reads `bitmapSize` (bitmap-only) or
`fullBlockSize` bytes at `batEntry * 512`. -/
def readBlock (s : VhdState) (d : DiskFile) (blockId : Nat) (onlyBitmap : Bool) :
    Except Err BlockData :=
  let blockAddr := getBatEntry s.blockTable blockId
  if blockAddr = BLOCK_UNUSED then
    Except.error Err.blockAbsent
  else
    (fileRead d (sectorsToBytes blockAddr)
        (if onlyBitmap then bitmapSize s.header else fullBlockSize s.header)).map
      (fun buf =>
        if onlyBitmap then
          { id := blockId, bitmap := buf, data := none, buffer := none }
        else
          { id := blockId
            bitmap := listSlice buf 0 (bitmapSize s.header)
            data := some (buf.drop (bitmapSize s.header))
            buffer := some buf })

/-- Embedding of `VhdFile._setBatEntry`: `writeUInt32BE` into the in-memory
BAT at byte `4 * block` (a Node range error when the slot does not fit in
the buffer), then write those four bytes at `tableOffset + 4 * block`. -/
def setBatEntry (s : VhdState) (d : DiskFile) (block blockSector : Nat) :
    Except Err (VhdState × DiskFile) :=
  let i := block * 4
  if i + 4 ≤ s.blockTable.length then
    let bt := listWriteBytes s.blockTable i (beBytes32 blockSector)
    Except.ok ({ s with blockTable := bt },
      fileWrite d (s.header.tableOffset + i) (listSlice bt i (i + 4)))
  else
    Except.error Err.outOfRange

/-- Embedding of `VhdAbstract._getEndOfHeaders`: max of
`FOOTER_SIZE + HEADER_SIZE`, `tableOffset + batSize`, and over locator
entries with a platform code, `platformDataOffset + sectorsToBytes(platformDataSpace)`. -/
def getEndOfHeaders (s : VhdState) : Nat :=
  s.header.parentLocatorEntry.foldl
    (fun end_ entry =>
      if entry.platformCode ≠ PLATFORM_NONE then
        max end_ (entry.platformDataOffset + sectorsToBytes entry.platformDataSpace)
      else end_)
    (max (FOOTER_SIZE + HEADER_SIZE) (s.header.tableOffset + batSize s.header))

/-- Embedding of `VhdAbstract._getEndOfData`: starting from
`ceil(endOfHeaders / 512)` sectors, max over all allocated BAT entries of
`batEntry + sectorsOfBitmap + sectorsPerBlock`, returned in bytes. -/
def getEndOfData (s : VhdState) : Nat :=
  let sectorsOfFullBlock := sectorsOfBitmap s.header + sectorsPerBlock s.header
  sectorsToBytes
    ((List.range s.header.maxTableEntries).foldl
      (fun end_ i =>
        let blockAddr := getBatEntry s.blockTable i
        if blockAddr ≠ BLOCK_UNUSED then max end_ (blockAddr + sectorsOfFullBlock) else end_)
      ((getEndOfHeaders s + 511) / 512))

/-- Embedding of `VhdFile._createBlock`: assert the slot is unused, place
the new block at `ceil(endOfData / 512)` sectors, record it in the BAT. -/
def createBlock (s : VhdState) (d : DiskFile) (blockId : Nat) :
    Except Err (VhdState × DiskFile × Nat) :=
  if getBatEntry s.blockTable blockId = BLOCK_UNUSED then
    let blockAddr := (getEndOfData s + 511) / 512
    (setBatEntry s d blockId blockAddr).map (fun p => (p.1, p.2, blockAddr))
  else
    Except.error Err.assertion

/-- Embedding of `VhdFile._writeBlockBitmap`: check the bitmap buffer has
length `bitmapSize`, then write it at `blockAddr` sectors. -/
def writeBlockBitmap (s : VhdState) (d : DiskFile) (blockAddr : Nat) (bitmap : List Nat) :
    Except Err DiskFile :=
  if bitmap.length = bitmapSize s.header then
    Except.ok (fileWrite d (sectorsToBytes blockAddr) bitmap)
  else
    Except.error Err.badBitmapLength

/-- Embedding of `VhdFile.writeEntireBlock`: allocate the block when
absent, then write `block.buffer` at the block address. -/
def writeEntireBlock (s : VhdState) (d : DiskFile) (blockId : Nat) (buffer : List Nat) :
    Except Err (VhdState × DiskFile) := do
  let blockAddr := getBatEntry s.blockTable blockId
  let (s1, d1, blockAddr) ←
    if blockAddr = BLOCK_UNUSED then createBlock s d blockId
    else Except.ok (s, d, blockAddr)
  Except.ok (s1, fileWrite d1 (sectorsToBytes blockAddr) buffer)

/-- Embedding of `VhdFile._writeBlockSectors`: allocate the block when
absent (with a zeroed bitmap), otherwise lazily read the bitmap when none
was supplied; set bits `[beginSectorId, endSectorId)`; write the bitmap and
then the affected sector bytes of `data`. Returns the bitmap that was
written, plus whether allocation replaced the supplied bitmap (in the
source, `mapSetBit` mutates the caller's buffer only in the latter-free
case). -/
def writeBlockSectors (s : VhdState) (d : DiskFile) (blockId : Nat) (data : List Nat)
    (beginSectorId endSectorId : Nat) (parentBitmap : Option (List Nat)) :
    Except Err (VhdState × DiskFile × List Nat × Bool) := do
  let blockAddr0 := getBatEntry s.blockTable blockId
  let (s1, d1, blockAddr, pb, created) ←
    if blockAddr0 = BLOCK_UNUSED then
      (createBlock s d blockId).map
        (fun t => (t.1, t.2.1, t.2.2, List.replicate (bitmapSize s.header) 0, true))
    else
      match parentBitmap with
      | none => (readBlock s d blockId true).map (fun b => (s, d, blockAddr0, b.bitmap, false))
      | some pb => Except.ok (s, d, blockAddr0, pb, false)
  let offset := blockAddr + sectorsOfBitmap s1.header + beginSectorId
  let pb2 := (List.range' beginSectorId (endSectorId - beginSectorId)).foldl bitmapSet pb
  let d2 ← writeBlockBitmap s1 d1 blockAddr pb2
  let d3 := fileWrite d2 (sectorsToBytes offset)
    (listSlice data (sectorsToBytes beginSectorId) (sectorsToBytes endSectorId))
  Except.ok (s1, d3, pb2, created)

/-- Iteration core of the `while (endSector < sectorsPerBlock &&
mapTestBit(bitmap, endSector))` scan of `coalesceBlock`; the counter is
the remaining distance to `sectorsPerBlock`, which bounds the loop. -/
def runLenAux (bm : List Nat) (spb : Nat) : Nat → Nat → Nat
  | 0, _ => 0
  | counter + 1, e =>
    if e < spb ∧ bitmapTest bm e then runLenAux bm spb counter (e + 1) + 1 else 0

/-- Length of the maximal run of set bits starting at sector `e`, capped
at `spb`. -/
def runLen (bm : List Nat) (spb e : Nat) : Nat :=
  runLenAux bm spb (spb - e) e

/-- The sector-run loop of `VhdFile.coalesceBlock`, iterating `i` over the
child's sectors: skip clear bits; for a run `[i, endSector)` of set bits,
write the whole child block when the run covers the block, otherwise read
this VHD's bitmap lazily (cached in `parentBitmap` across runs) and write
the run through `_writeBlockSectors`; resume after the run. The counter
bounds the iterations; since `i` strictly increases up to `spb`, a start
value of `spb + 1` can never run out. -/
def coalesceRuns (s : VhdState) (d : DiskFile) (blk : BlockData) (blockId spb : Nat)
    (parentBitmap : Option (List Nat)) : Nat → Nat → Except Err (VhdState × DiskFile)
  | 0, _ => Except.error Err.stackOverflow
  | counter + 1, i =>
    if i < spb then
      if bitmapTest blk.bitmap i then
        let e := i + 1 + runLen blk.bitmap spb (i + 1)
        if i = 0 ∧ e = spb then do
          let (s1, d1) ← writeEntireBlock s d blk.id (blk.buffer.getD [])
          coalesceRuns s1 d1 blk blockId spb parentBitmap counter (e + 1)
        else do
          let pb ←
            match parentBitmap with
            | none => (readBlock s d blockId true).map (fun b => b.bitmap)
            | some pb => Except.ok pb
          let (s1, d1, pb2, created) ←
            writeBlockSectors s d blk.id (blk.data.getD []) i e (some pb)
          coalesceRuns s1 d1 blk blockId spb (some (if created then pb else pb2)) counter (e + 1)
      else
        coalesceRuns s d blk blockId spb parentBitmap counter (i + 1)
    else
      Except.ok (s, d)

/-- Embedding of `VhdFile.coalesceBlock`: read the child's full block, walk
its bitmap by maximal runs of set bits, and return `data.length` as the
merged data size. -/
def coalesceBlock (s : VhdState) (d : DiskFile) (cs : VhdState) (cd : DiskFile)
    (blockId : Nat) : Except Err (VhdState × DiskFile × Nat) := do
  let blk ← readBlock cs cd blockId false
  let spb := sectorsPerBlock cs.header
  let (s1, d1) ← coalesceRuns s d blk blockId spb none (spb + 1) 0
  Except.ok (s1, d1, (blk.data.getD []).length)

/-- Modelled from the spec: the one's-complement checksum of
`_structs.checksumStruct` — zero the 4-byte checksum field, sum all bytes,
take the one's complement truncated to 32 bits, and patch the field into
the raw record. Returns the patched record and the checksum value. -/
def checksumStruct (raw : List Nat) (checksumOffset : Nat) : List Nat × Nat :=
  let zeroed := listWriteBytes raw checksumOffset [0, 0, 0, 0]
  let sum := zeroed.foldl (fun a b => a + b) 0
  let ck := (2 ^ 32 - 1) - sum % 2 ^ 32
  (listWriteBytes raw checksumOffset (beBytes32 ck), ck)

/-- Modelled from the spec: `fuFooter.pack` — 512 bytes, big-endian, with
`originalSize` at offset 40, `currentSize` at 48, `diskType` at 60 and
`checksum` at 64; the fields this core does not touch are left zero. -/
def packFooter (f : VhdFooter) : List Nat :=
  listWriteBytes
    (listWriteBytes
      (listWriteBytes
        (listWriteBytes (List.replicate FOOTER_SIZE 0) 40 (beBytes64 f.originalSize))
        48 (beBytes64 f.currentSize))
      60 (beBytes32 f.diskType))
    64 (beBytes32 f.checksum)

/-- Modelled from the spec: `fuHeader.pack` — 1024 bytes, big-endian, with
`tableOffset` at offset 16, `headerVersion` at 24, `maxTableEntries` at 28,
`blockSize` at 32, `checksum` at 36 and the eight 24-byte parent locator
entries at offset 576 (`platformCode`, `platformDataSpace`,
`platformDataLength`, reserved, `platformDataOffset`); the fields this core
does not touch are left zero. -/
def packHeader (h : VhdHeader) : List Nat :=
  let base :=
    listWriteBytes
      (listWriteBytes
        (listWriteBytes
          (listWriteBytes
            (listWriteBytes (List.replicate HEADER_SIZE 0) 16 (beBytes64 h.tableOffset))
            24 (beBytes32 h.headerVersion))
          28 (beBytes32 h.maxTableEntries))
        32 (beBytes32 h.blockSize))
      36 (beBytes32 h.checksum)
  (List.range 8).foldl
    (fun acc i =>
      let entry := h.parentLocatorEntry.getD i zeroLocator
      listWriteBytes acc (576 + 24 * i)
        (beBytes32 entry.platformCode ++ beBytes32 entry.platformDataSpace ++
          beBytes32 entry.platformDataLength ++ beBytes32 0 ++
          beBytes64 entry.platformDataOffset))
    base

/-- Embedding of `VhdFile.writeFooter`: repack the footer, recompute its
checksum, write it at `max(endOfData, fileSize - 512)` and, unless
`onlyEndFooter`, also at offset 0. -/
def writeFooter (s : VhdState) (d : DiskFile) (onlyEndFooter : Bool) :
    Except Err (VhdState × DiskFile) :=
  let raw0 := packFooter s.footer
  let eof := d.size
  let offset := max (getEndOfData s) (eof - raw0.length)
  let (raw, ck) := checksumStruct raw0 64
  let s1 := { s with footer := { s.footer with checksum := ck } }
  let d1 := if onlyEndFooter then d else fileWrite d 0 raw
  Except.ok (s1, fileWrite d1 offset raw)

/-- Embedding of `VhdFile.writeHeader`: repack the header, recompute its
checksum, write it at offset `FOOTER_SIZE`. -/
def writeHeader (s : VhdState) (d : DiskFile) : Except Err (VhdState × DiskFile) :=
  let raw0 := packHeader s.header
  let (raw, ck) := checksumStruct raw0 36
  let s1 := { s with header := { s.header with checksum := ck } }
  Except.ok (s1, fileWrite d FOOTER_SIZE raw)

/-- Modelled from the spec: `getFirstAndLastBlocks` of
`_getFirstAndLastBlocks` — scan the BAT buffer for the allocated entries
with minimum and maximum sector addresses; `undefined` (here `none`) when
no entry is allocated. Returns `(first, firstSector, lastSector)` where
`first` is the block id of the minimum. -/
def getFirstAndLastBlocks (blockTable : List Nat) : Option (Nat × Nat × Nat) :=
  (List.range (blockTable.length / 4)).foldl
    (fun acc j =>
      let entry := beU32 blockTable (j * 4)
      if entry = BLOCK_UNUSED then acc
      else
        match acc with
        | none => some (j, entry, entry)
        | some (first, firstSector, lastSector) =>
          let acc1 := if entry < firstSector then (j, entry, lastSector)
            else (first, firstSector, lastSector)
          some (if entry > acc1.2.2 then (acc1.1, acc1.2.1, entry) else acc1))
    none

/-- Embedding of `VhdFile._freeFirstBlockSpace`: while the space between
the end of the BAT (plus the requested room) and the first data block is
insufficient, move the first block past `max(lastSector + fullBlockSize/512,
ceil((tableOffset + batSize + spaceNeeded) / 512))`, update its BAT slot,
rewrite the end footer, and recurse on the remaining byte count. -/
def freeFirstBlockSpaceAux (counter : Nat) (s : VhdState) (d : DiskFile)
    (spaceNeededBytes : Nat) : Except Err (VhdState × DiskFile) :=
  match getFirstAndLastBlocks s.blockTable with
  | none => Except.ok (s, d)
  | some (first, firstSector, lastSector) =>
    let tableOffset := s.header.tableOffset
    let bs := batSize s.header
    let newMinSector := (tableOffset + bs + spaceNeededBytes + 511) / 512
    if tableOffset + bs + spaceNeededBytes ≥ sectorsToBytes firstSector then do
      let fbs := fullBlockSize s.header
      let newFirstSector := max (lastSector + fbs / SECTOR_SIZE) newMinSector
      let block ← fileRead d (sectorsToBytes firstSector) fbs
      let d1 := fileWrite d (sectorsToBytes newFirstSector) block
      let (s1, d2) ← setBatEntry s d1 first newFirstSector
      let (s2, d3) ← writeFooter s1 d2 true
      let remaining := spaceNeededBytes - fullBlockSize s2.header
      if 0 < remaining then
        match counter with
        | 0 => Except.error Err.stackOverflow
        | counter + 1 => freeFirstBlockSpaceAux counter s2 d3 remaining
      else
        Except.ok (s2, d3)
    else
      Except.ok (s, d)

/-- Embedding of `VhdFile._freeFirstBlockSpace`: while the space between
the end of the BAT (plus the requested room) and the first data block is
insufficient, move the first block past `max(lastSector + fullBlockSize/512,
ceil((tableOffset + batSize + spaceNeeded) / 512))`, update its BAT slot,
rewrite the end footer, and recurse on the remaining byte count. The
counter bounds the recursion: every round shrinks the remaining bytes by
`fullBlockSize ≥ 512`, so `spaceNeededBytes` rounds always suffice. -/
def freeFirstBlockSpace (s : VhdState) (d : DiskFile) (spaceNeededBytes : Nat) :
    Except Err (VhdState × DiskFile) :=
  freeFirstBlockSpaceAux spaceNeededBytes s d spaceNeededBytes

/-- Embedding of `VhdFile.ensureBatSize`: no-op when the table already has
enough entries; otherwise free room after the BAT, extend the in-memory
BAT to `computeBatSize(entries)` bytes filled with `BLOCK_UNUSED` bytes
from byte `prevMaxTableEntries * 4`, persist
`Buffer.alloc(entries - prevMaxTableEntries, BUF_BLOCK_UNUSED)` — that
many bytes of 0xFF — at `tableOffset + prevBat.length`, and rewrite the
header with the new `maxTableEntries`. -/
def ensureBatSize (s : VhdState) (d : DiskFile) (entries : Nat) :
    Except Err (VhdState × DiskFile) :=
  let prevMaxTableEntries := s.header.maxTableEntries
  if entries ≤ prevMaxTableEntries then Except.ok (s, d)
  else do
    let newBatSize := computeBatSize entries
    let (s1, d1) ← freeFirstBlockSpace s d (newBatSize - batSize s.header)
    let prevBat := s1.blockTable
    let bat := (List.range newBatSize).map
      (fun idx => if idx < prevMaxTableEntries * 4 then prevBat.getD idx 0 else 255)
    let s2 := { s1 with
      header := { s1.header with maxTableEntries := entries }
      blockTable := bat }
    let d2 := fileWrite d1 (s2.header.tableOffset + prevBat.length)
      (List.replicate (entries - prevMaxTableEntries) 255)
    writeHeader s2 d2

/-- The per-block loop of `VhdFile.writeData`, iterating `currentBlock`
from `startBlock` to `lastBlock`: compute the sector range inside the
block and the byte range inside the buffer; a slice covering the whole
block is passed through, otherwise the bytes are copied into a zeroed
block-sized scratch buffer; then `_writeBlockSectors` is called. The
counter is the number of remaining iterations,
`lastBlock + 1 - currentBlock`. -/
def writeDataLoop (offsetSectors : Nat) (buffer : List Nat)
    (endBufferSectors : Nat) :
    Nat → VhdState → DiskFile → Nat → Except Err (VhdState × DiskFile)
  | 0, s, d, _ => Except.ok (s, d)
  | counter + 1, s, d, currentBlock => do
    let spb := sectorsPerBlock s.header
    let blockSizeBytes := spb * SECTOR_SIZE
    let offsetInBlockSectors := offsetSectors - currentBlock * spb
    let endInBlockSectors := min (endBufferSectors - currentBlock * spb) spb
    let startInBuffer := (currentBlock * spb - offsetSectors) * SECTOR_SIZE
    let endInBuffer := min (((currentBlock + 1) * spb - offsetSectors) * SECTOR_SIZE) buffer.length
    let inputBuffer :=
      if offsetInBlockSectors = 0 ∧ endInBlockSectors = spb then
        listSlice buffer startInBuffer endInBuffer
      else
        listWriteBytes (List.replicate blockSizeBytes 0) (offsetInBlockSectors * SECTOR_SIZE)
          (listSlice buffer startInBuffer endInBuffer)
    let (s1, d1, _, _) ←
      writeBlockSectors s d currentBlock inputBuffer offsetInBlockSectors endInBlockSectors none
    writeDataLoop offsetSectors buffer endBufferSectors counter s1 d1 (currentBlock + 1)

/-- Embedding of `VhdFile.writeData`: derive `startBlock`, `lastBlock`,
call `ensureBatSize(lastBlock)`, run the per-block loop, and rewrite both
footers. -/
def writeData (s : VhdState) (d : DiskFile) (offsetSectors : Nat) (buffer : List Nat) :
    Except Err (VhdState × DiskFile) := do
  let bufferSizeSectors := (buffer.length + 511) / 512
  let spb := sectorsPerBlock s.header
  let startBlock := offsetSectors / spb
  let endBufferSectors := offsetSectors + bufferSizeSectors
  let lastBlock := (endBufferSectors + spb - 1) / spb - 1
  let (s1, d1) ← ensureBatSize s d lastBlock
  let (s2, d2) ← writeDataLoop offsetSectors buffer endBufferSectors
    (lastBlock + 1 - startBlock) s1 d1 startBlock
  writeFooter s2 d2 false

/-- Statement vocabulary: the bitmap `old` with the bits of every sector
`i < spb` that is set in `bm` OR-ed in (the accumulated effect of the
`mapSetBit` calls of a full `coalesceBlock` pass). -/
def orBits (old bm : List Nat) (spb : Nat) : List Nat :=
  ((List.range spb).filter (fun i => bitmapTest bm i)).foldl bitmapSet old

/-- Statement vocabulary: the expected byte at address `a` after the first
`k` sectors of a child block with bitmap `bm` and data `dt` have been
coalesced into an allocated parent block at byte address `base` whose
bitmap occupies `bmS` bytes and whose original content is that of `d`:
bitmap bytes are OR-ed, data bytes of processed set sectors come from the
child, everything else is unchanged. -/
def coalesceMid (d : DiskFile) (base bmS : Nat) (bm dt : List Nat) (k a : Nat) : Nat :=
  if base ≤ a ∧ a < base + bmS then (orBits (readBytes d base bmS) bm k).getD (a - base) 0
  else if base + bmS ≤ a ∧ (a - (base + bmS)) / 512 < k ∧
      bitmapTest bm ((a - (base + bmS)) / 512) = true then
    dt.getD (a - (base + bmS)) 0
  else d.data a

/-- Embedding of `VhdFile.readParentLocatorData`: assert the locator id is
in `[0, 8)`; the method performs the read — of `platformDataSpace` bytes at
`platformDataOffset` — only when `platformDataSpace === 0`, and otherwise
returns `undefined` (here `none`). -/
def fileReadParentLocatorData (s : VhdState) (d : DiskFile) (parentLocatorId : Nat) :
    Except Err (Option (List Nat)) :=
  if parentLocatorId < 8 then
    let entry := s.header.parentLocatorEntry.getD parentLocatorId
      zeroLocator
    if entry.platformDataSpace = 0 then
      (fileRead d entry.platformDataOffset entry.platformDataSpace).map some
    else
      Except.ok none
  else
    Except.error Err.assertion

/-- Embedding of `VhdAbstract.readParentLocatorData`: assert the locator id
is in `[0, 8)`; delegate to the backend read — of `platformDataSpace` bytes
at `platformDataOffset` — only when `platformDataSpace > 0`, and otherwise
return `undefined` (here `none`). The backend read is abstracted as
`readImpl`. -/
def abstractReadParentLocatorData (s : VhdState) (parentLocatorId : Nat)
    (readImpl : Nat → Nat → List Nat) : Except Err (Option (List Nat)) :=
  if parentLocatorId < 8 then
    let entry := s.header.parentLocatorEntry.getD parentLocatorId
      zeroLocator
    if entry.platformDataSpace > 0 then
      Except.ok (some (readImpl entry.platformDataOffset entry.platformDataSpace))
    else
      Except.ok none
  else
    Except.error Err.assertion

end Vhd

namespace Cleaner

/-- Modelled from the spec: `DISK_TYPES.DIFFERENCING` of `_constants`
(the numeric tag of a differencing VHD; the cleaner only compares it for
equality). -/
def DISK_TYPE_DIFFERENCING : Nat := 4

/-- Result of `openVhd(handler, path, { checkSecondFooter })` as the
cleaner observes it: success (with the footer's disk type and the header's
`parentUnicodeName`), an error whose `code` is `ERR_ASSERTION`, or any
other error. -/
inductive OpenResult where
  | ok (diskType : Nat) (parentUnicodeName : Option String) : OpenResult
  | errAssertion : OpenResult
  | errOther : OpenResult
deriving DecidableEq, Repr

/-- Backup metadata JSON as the cleaner reads it: `mode`, optional `size`,
optional `xva` (relative path) and the values of the `vhds` object
(relative paths, in key order). -/
structure Metadata where
  mode : String
  size : Option Nat
  xva : Option String
  vhds : List String
deriving DecidableEq, Repr

/-- Observable operations of a `cleanVm` run. `log` covers `onLog`;
the rest are the namespace and file mutations: `unlink` (both
`handler.unlink` and `VhdAbstract.unlink`), `rename`
(`VhdAbstract.rename`), `writeFile` of backup metadata, and the whole-VHD
mutation performed by `mergeVhd` (whose parent/child arguments may be
`undefined` in the source, hence `Option String`). -/
inductive Effect where
  | log (msg : String) : Effect
  | unlink (path : String) : Effect
  | rename (src dst : Option String) : Effect
  | writeFile (path : String) (m : Metadata) : Effect
  | mergeVhd (parent child : Option String) : Effect
deriving DecidableEq, Repr

/-- Whether an effect mutates the namespace or a file (everything except
logging). -/
def Effect.isMutation : Effect → Bool
  | .log _ => false
  | _ => true

/-- The byte handler and the external helpers of the cleaner, abstracted
into pure query functions: directory listings, the `_backupType.js`
filename predicates, `openVhd` (taking the path and the `checkSecondFooter`
flag), `path.resolve`/`dirname` combinations, metadata parsing, file
sizes, XVA validation and `computeVhdsSize`. -/
structure Handler where
  listDir : String → List String
  isVhdFile : String → Bool
  isMetadataFile : String → Bool
  isXvaFile : String → Bool
  isXvaSumFile : String → Bool
  openVhd : String → Bool → OpenResult
  resolveRel : String → String → String
  resolveVm : String → String
  readJson : String → Metadata
  getSize : String → Option Nat
  isValidXva : String → Bool
  vhdsSize : List String → Option Nat

/-- Rightmost split of a character list at a `/.` pair with a non-empty
remainder: returns the part before the `/` and the part after the `.`.
This is the backtracking search for the optional `(?:(.+)/)?` group of
`INTERRUPTED_VHDS_REG`, whose first group is greedy. -/
def splitAtLastSlashDot : List Char → Option (List Char × List Char)
  | [] => none
  | [_] => none
  | a :: b :: rest =>
    match splitAtLastSlashDot (b :: rest) with
    | some (pre, post) => some (a :: pre, post)
    | none => if a = '/' ∧ b = '.' ∧ rest ≠ [] then some ([], rest) else none

/-- Embedding of `INTERRUPTED_VHDS_REG.exec`, the regular expression
`^(?:(.+)\/)?\.(.+)\.merge.json$`: the anchored suffix is a literal
`.merge`, one arbitrary character (the unescaped dot) and `json`; before it
come an optional greedy directory group, a literal `.`, and a non-empty
greedy basename group. Returns `(dir?, file)` on a match. -/
def sidecarExec (f : String) : Option (Option String × String) :=
  let cs := f.toList
  if 11 ≤ cs.length then
    let rest := cs.take (cs.length - 11)
    let tail := cs.drop (cs.length - 11)
    if tail.take 6 = ['.', 'm', 'e', 'r', 'g', 'e'] ∧ tail.drop 7 = ['j', 's', 'o', 'n'] then
      match splitAtLastSlashDot rest with
      | some (pre, post) =>
        if pre = [] then none else some (some (String.mk pre), String.mk post)
      | none =>
        match rest with
        | '.' :: g2 => if g2 = [] then none else some (none, String.mk g2)
        | _ => none
    else none
  else none

/-- Embedding of the listing part of `listVhds`: walk `vmDir/vdis/*/*` and
keep the files that are VHDs or match the sidecar pattern. -/
def listVdiFiles (h : Handler) (vmDir : String) : List String :=
  ((h.listDir (vmDir ++ "/vdis")).map
    (fun jobDir =>
      ((h.listDir jobDir).map
        (fun vdiDir =>
          (h.listDir vdiDir).filter
            (fun f => h.isVhdFile f || (sidecarExec f).isSome))).flatten)).flatten

/-- Embedding of `listVhds`: split the listed files into `vhds` and
`interruptedVhds` — the latter holding `` `${dir}/${file}` `` recovered
from the sidecar name (with JavaScript rendering a missing group as the
string `undefined`). -/
def listVhds (h : Handler) (vmDir : String) : List String × List String :=
  let files := listVdiFiles h vmDir
  files.foldl
    (fun acc f =>
      match sidecarExec f with
      | none => (acc.1 ++ [f], acc.2)
      | some (dir, file) => (acc.1, acc.2 ++ [(dir.getD ("undefined")) ++ "/" ++ file]))
    ([], [])

/-- Association-list lookup (JavaScript object property read). -/
def alookup (l : List (String × α)) (k : String) : Option α :=
  match l.find? (fun p => p.1 = k) with
  | some p => some p.2
  | none => none

/-- Association-list assignment (JavaScript object property write: update
in place when present, append in insertion order otherwise). -/
def aset (l : List (String × α)) (k : String) (v : α) : List (String × α) :=
  if (alookup l k).isSome then l.map (fun p => if p.1 = k then (k, v) else p)
  else l ++ [(k, v)]

/-- Association-list key deletion (JavaScript `delete obj[k]`). -/
def aremove (l : List (String × α)) (k : String) : List (String × α) :=
  l.filter (fun p => p.1 ≠ k)

/-- Fold a per-item step function over a list, concatenating the effect
lists emitted by each step (the cleaner's `asyncMap` loops, serialized in
list order). -/
def runItems (f : σ → α → σ × List Effect) (init : σ) (xs : List α) : σ × List Effect :=
  xs.foldl (fun acc x => let r := f acc.1 x; (r.1, acc.2 ++ r.2)) (init, [])

/-- State built by the first `cleanVm` phase: the set of valid VHD paths
and the `vhdParents` / `vhdChildren` maps. -/
structure Phase1St where
  vhds : List String
  vhdParents : List (String × String)
  vhdChildren : List (String × String)
deriving Repr

/-- Per-path body of the `remove broken VHDs` phase: open the VHD with
`checkSecondFooter` unless the path is an interrupted one; on success
record it and, for a differencing disk, resolve and record its parent,
rejecting a second child of the same parent (the `MultipleChildren` error
is caught and logged, and — its `code` not being `ERR_ASSERTION` — never
triggers deletion); on an `ERR_ASSERTION` failure delete the file when
`remove` is set. -/
def phase1Item (h : Handler) (interrupted : List String) (remove : Bool)
    (st : Phase1St) (path : String) : Phase1St × List Effect :=
  match h.openVhd path (!(interrupted.contains path)) with
  | .errAssertion =>
    (st, [Effect.log ("error while checking the VHD with path " ++ path)] ++
      (if remove then [Effect.log ("deleting broken " ++ path), Effect.unlink path] else []))
  | .errOther =>
    (st, [Effect.log ("error while checking the VHD with path " ++ path)])
  | .ok diskType parentUnicodeName =>
    let st1 := { st with vhds := st.vhds ++ [path] }
    if diskType = DISK_TYPE_DIFFERENCING then
      let parent := h.resolveRel path (parentUnicodeName.getD (""))
      let st2 := { st1 with vhdParents := aset st1.vhdParents path parent }
      if (alookup st2.vhdChildren parent).isSome then
        (st2, [Effect.log ("error while checking the VHD with path " ++ path)])
      else
        ({ st2 with vhdChildren := aset st2.vhdChildren parent path }, [])
    else
      (st1, [])

/-- Embedding of `deleteIfOrphan` in the `remove VHDs with missing
ancestors` phase: if the path still has a pending parent record, drop the
record, recurse into the parent, and if the parent is not among the valid
VHDs drop this VHD (unlinking it when `remove`). The fuel is the number of
pending records plus one, which the recursion — removing one record per
step — can never exhaust. -/
def deleteIfOrphan (remove : Bool) :
    Nat → List (String × String) → List String → String →
    (List (String × String) × List String × List Effect)
  | 0, parents, vhds, _ => (parents, vhds, [])
  | fuel + 1, parents, vhds, vhdPath =>
    match alookup parents vhdPath with
    | none => (parents, vhds, [])
    | some parent =>
      let parents1 := aremove parents vhdPath
      let (parents2, vhds2, eff) := deleteIfOrphan remove fuel parents1 vhds parent
      if vhds2.contains parent then (parents2, vhds2, eff)
      else
        (parents2, vhds2.filter (fun v => v ≠ vhdPath),
          eff ++ [Effect.log ("the parent " ++ parent ++ " of the VHD " ++ vhdPath ++
            " is missing")] ++
          (if remove then [Effect.log ("deleting orphan VHD " ++ vhdPath),
            Effect.unlink vhdPath] else []))

/-- The `remove VHDs with missing ancestors` phase: iterate over the
initially-recorded children, skipping records already deleted by an
earlier recursive visit. -/
def phase2Orphans (remove : Bool) (st : Phase1St) : Phase1St × List Effect :=
  let keys := st.vhdParents.map (fun p => p.1)
  let r := keys.foldl
    (fun acc child =>
      let (parents, vhds, eff) := acc
      if (alookup parents child).isSome then
        let (parents1, vhds1, eff1) := deleteIfOrphan remove (parents.length + 1) parents vhds child
        (parents1, vhds1, eff ++ eff1)
      else acc)
    (st.vhdParents, st.vhds, [])
  ({ st with vhdParents := r.1, vhds := r.2.1 }, r.2.2)

/-- State built by the backup-metadata phase: the VHDs and XVAs not yet
referenced by a surviving JSON, and the `vhdsToJSons` map. -/
structure Phase3St where
  unusedVhds : List String
  unusedXvas : List String
  vhdsToJSons : List (String × String)
deriving Repr

/-- The `metadataSize === undefined || metadataSize < size` guard of the
metadata phase (a JavaScript comparison with `undefined` is false, so the
disjunction holds exactly when the recorded size is undefined or strictly
below the computed one). -/
def undefinedOrBelow (old : Option Nat) (sv : Nat) : Bool :=
  match old with
  | none => true
  | some mv => decide (mv < sv)

/-- The `metadata.size < size` comparison of `doMerge` (false when the
recorded size is undefined). -/
def strictlyBelow (old : Option Nat) (sv : Nat) : Bool :=
  match old with
  | none => false
  | some mv => decide (mv < sv)

/-- Per-JSON body of the metadata phase: for `mode == 'full'` check the
linked XVA and take its size; for `mode == 'delta'` check every linked VHD
and compute their summed size; delete the JSON (when `remove`) if a
payload is missing; then, when a size was computed and differs from the
recorded one, log, and rewrite the JSON when `fixMetadata` is set and the
recorded size is undefined or smaller. This is the size-repair tail:
log the discrepancy and rewrite the JSON when `fixMetadata` is set and the
recorded size is undefined or strictly smaller. -/
def phase3SizeEffects (fixMetadata : Bool) (json : String) (metadata : Metadata)
    (size : Option Nat) : List Effect :=
  match size with
  | none => []
  | some sv =>
    if metadata.size ≠ some sv then
      [Effect.log ("incorrect size in metadata")] ++
      (if fixMetadata && undefinedOrBelow metadata.size sv then
        [Effect.writeFile json { metadata with size := some sv }]
      else [])
    else []

/-- Per-JSON body of the metadata phase, continued: combine the
payload-check effects with the size-repair effects. -/
def phase3Item (h : Handler) (vhds : List String) (xvas : List String)
    (remove fixMetadata : Bool) (st : Phase3St) (json : String) : Phase3St × List Effect :=
  let metadata := h.readJson json
  let (st1, size, eff1) :=
    if metadata.mode = "full" then
      let linkedXva := h.resolveVm (metadata.xva.getD (""))
      if xvas.contains linkedXva then
        ({ st with unusedXvas := st.unusedXvas.filter (fun x => x ≠ linkedXva) },
          h.getSize linkedXva,
          match h.getSize linkedXva with
          | none => [Effect.log ("failed to get size of " ++ json)]
          | some _ => [])
      else
        (st, none,
          [Effect.log ("the XVA linked to the metadata " ++ json ++ " is missing")] ++
          (if remove then [Effect.log ("deleting incomplete backup " ++ json),
            Effect.unlink json] else []))
    else if metadata.mode = "delta" then
      let linkedVhds := metadata.vhds.map h.resolveVm
      if linkedVhds.all (fun v => vhds.contains v) then
        ({ st with
            unusedVhds := st.unusedVhds.filter (fun v => !(linkedVhds.contains v))
            vhdsToJSons := linkedVhds.foldl (fun m p => aset m p json) st.vhdsToJSons },
          h.vhdsSize linkedVhds,
          match h.vhdsSize linkedVhds with
          | none => [Effect.log ("failed to get size of " ++ json)]
          | some _ => [])
      else
        (st, none,
          [Effect.log ("Some VHDs linked to the metadata " ++ json ++ " are missing")] ++
          (if remove then [Effect.log ("deleting incomplete backup " ++ json),
            Effect.unlink json] else []))
    else
      (st, none, [])
  (st1, eff1 ++ phase3SizeEffects fixMetadata json metadata size)

/-- A merge chain as `cleanVm` builds it: a list from child to ancestor
whose elements are paths — or JavaScript `undefined` (`none`) when an
interrupted entry has no registered child. -/
abbrev Chain := List (Option String)

/-- State of the merge-plan phase: the `vhdChainsToMerge` map (whose
entries may hold the stored value `undefined`), the `toCheck` set, and the
effects emitted while walking. -/
structure Phase4St where
  chains : List (String × Option Chain)
  toCheck : List String
deriving Repr

/-- Embedding of `getUsedChildChainOrDelete`: a memoized walk down
`vhdChildren` from an unused VHD to its first used descendant; a used VHD
yields the singleton chain, a dead end logs the VHD as unused and unlinks
it when `remove`. The fuel models the JavaScript call stack: the source
recursion has no cycle guard, so a cyclic parent graph overflows. -/
def getUsedChildChain (unusedVhds : List String) (vhdChildren : List (String × String))
    (remove : Bool) :
    Nat → Phase4St → String → Except Vhd.Err (Phase4St × Option Chain × List Effect)
  | 0, _, _ => Except.error Vhd.Err.stackOverflow
  | fuel + 1, st, vhd =>
    match alookup st.chains vhd with
    | some chainOpt => Except.ok ({ st with chains := aremove st.chains vhd }, chainOpt, [])
    | none =>
      if !(unusedVhds.contains vhd) then Except.ok (st, some [some vhd], [])
      else
        let st1 := { st with toCheck := st.toCheck.filter (fun v => v ≠ vhd) }
        let deleteResult := fun (st2 : Phase4St) =>
          Except.ok (st2, none,
            [Effect.log ("the VHD " ++ vhd ++ " is unused")] ++
            (if remove then [Effect.log ("deleting unused VHD " ++ vhd),
              Effect.unlink vhd] else []))
        match alookup vhdChildren vhd with
        | some child => do
          let (st2, chainOpt, eff) ← getUsedChildChain unusedVhds vhdChildren remove fuel st1 child
          match chainOpt with
          | some chain => Except.ok (st2, some (chain ++ [some vhd]), eff)
          | none =>
            (deleteResult st2).map (fun r => (r.1, r.2.1, eff ++ r.2.2))
        | none => deleteResult st1

/-- The merge-plan phase: walk every unused VHD still in `toCheck`, store
each result (including stored `undefined`s) in `vhdChainsToMerge`, then
overwrite, for every interrupted path `p`, the entry at `p` with the pair
`[vhdChildren[p], p]`, and collect the defined chains into `toMerge`. -/
def phase4Plan (h : Handler) (interrupted : List String) (unusedVhds : List String)
    (vhdChildren : List (String × String)) (remove : Bool) :
    Except Vhd.Err (List Chain × List Effect) := do
  let init : Phase4St := { chains := [], toCheck := unusedVhds }
  let (st1, eff1) ←
    unusedVhds.foldlM
      (fun (acc : Phase4St × List Effect) vhd => do
        if acc.1.toCheck.contains vhd then
          let (st2, chainOpt, eff) ←
            getUsedChildChain unusedVhds vhdChildren remove (unusedVhds.length + 1) acc.1 vhd
          Except.ok ({ st2 with chains := aset st2.chains vhd chainOpt }, acc.2 ++ eff)
        else Except.ok acc)
      (init, [])
  let chains2 := interrupted.foldl
    (fun cs parent => aset cs parent (some [alookup vhdChildren parent, some parent]))
    st1.chains
  Except.ok ((chains2.map (fun p => p.2)).reduceOption, eff1)

/-- Embedding of `mergeVhdChain`: assert the chain has at least two
elements, log every unused ancestor; when `merge` is set, truncate multiple
children to the deepest one, merge it into the parent, rename the parent
over the child, and return the merged size (the unlink loop runs over
`children.slice(0, -1)`, which is always empty after the truncation).
Without `merge`, only the logs are emitted and `undefined` is returned. -/
def mergeVhdChainM (remove merge : Bool) (chain : Chain) :
    Except Vhd.Err (Option Nat × List Effect) :=
  if chain.length ≥ 2 then
    let child0 := chain.headD none
    let parent := chain.getLastD none
    let childrenRev := chain.dropLast.reverse
    let logsUnused := (chain.drop 1).reverse.map
      (fun p => Effect.log ("the parent " ++ (p.getD ("undefined")) ++ " of the child is unused"))
    if merge then
      let child := if childrenRev.length ≠ 1 then childrenRev.headD none else child0
      Except.ok (some 0,
        logsUnused ++
        [Effect.log ("merging the child into the parent"),
          Effect.mergeVhd parent child,
          Effect.rename parent child])
    else
      Except.ok (none, logsUnused)
  else
    Except.error Vhd.Err.assertion

/-- Embedding of `doMerge`: run `mergeVhdChain` over the plan, collecting
the metadata paths of chains that actually merged (a chain head of
`undefined` indexes the map at the string `undefined`, as JavaScript
stringifies missing keys); then, for each collected path, re-read the
metadata and try to recompute the size — `computeVhdsSize` is called on
the raw `metadata.vhds` object, which has no `map` method, so the call
throws, the error is caught and the size stays undefined — and rewrite the
file only when `metadata.size < size || metadata.size === undefined`. -/
def doMerge (h : Handler) (vhdsToJSons : List (String × String)) (toMerge : List Chain)
    (remove merge : Bool) : Except Vhd.Err (List Effect) := do
  let (metadataToBeUpdated, eff1) ←
    toMerge.foldlM
      (fun (acc : List String × List Effect) chain => do
        let (merged, eff) ← mergeVhdChainM remove merge chain
        match merged with
        | some _ =>
          let key :=
            match chain.headD none with
            | some p => (alookup vhdsToJSons p).getD ("undefined")
            | none => "undefined"
          Except.ok ((if acc.1.contains key then acc.1 else acc.1 ++ [key]), acc.2 ++ eff)
        | none => Except.ok (acc.1, acc.2 ++ eff))
      ([], [])
  let eff2 := metadataToBeUpdated.foldl
    (fun eff metadataPath =>
      let metadata := h.readJson metadataPath
      let size : Option Nat := none
      let effW :=
        match size with
        | some sv =>
          if strictlyBelow metadata.size sv || metadata.size == none then
            [Effect.writeFile metadataPath { metadata with size := some sv }]
          else []
        | none =>
          if metadata.size == none then
            [Effect.writeFile metadataPath { metadata with size := none }]
          else []
      eff ++ [Effect.log ("failed to get size of " ++ metadataPath ++ " after merge")] ++ effW)
    []
  Except.ok (eff1 ++ eff2)

/-- Everything a `cleanVm` run produces, with the internal collections the
claims talk about exposed: the returned `merge` flag, the interrupted set,
the child map, the merge plan, and the ordered effect list. -/
structure CleanResult where
  merge : Bool
  interrupted : List String
  vhdChildren : List (String × String)
  toMerge : List Chain
  effects : List Effect
deriving Repr

/-- The flags of `cleanVm` (the concurrency limiter and the logger carry
no decision content and are omitted). -/
structure Flags where
  fixMetadata : Bool
  remove : Bool
  merge : Bool
deriving DecidableEq, Repr

/-- Intermediate result of the `cleanVm` phases up to the merge plan. -/
structure CoreResult where
  interrupted : List String
  vhdChildren : List (String × String)
  toMerge : List Chain
  vhdsToJSons : List (String × String)
  xvas : List String
  unusedXvas : List String
  xvaSums : List String
  effects : List Effect
deriving Repr

/-- The phases of `cleanVm` up to the merge plan, which never read the
`merge` flag: list the VHDs and sidecars, prune broken VHDs, prune
orphans, collect JSON/XVA/checksum entries, process the backup metadata,
and build the merge plan. Returns the plan together with everything the
final phase needs. -/
def cleanVmCore (h : Handler) (vmDir : String) (remove fixMetadata : Bool) :
    Except Vhd.Err CoreResult := do
  let (vhdsListed, interrupted) := listVhds h vmDir
  let (st1, effA) := runItems (phase1Item h interrupted remove)
    { vhds := [], vhdParents := [], vhdChildren := [] } vhdsListed
  let (st2, effB) := phase2Orphans remove st1
  let entries := h.listDir vmDir
  let jsons := entries.filter h.isMetadataFile
  let xvas := (entries.filter (fun p => !h.isMetadataFile p)).filter h.isXvaFile
  let xvaSums := ((entries.filter (fun p => !h.isMetadataFile p)).filter
    (fun p => !h.isXvaFile p)).filter h.isXvaSumFile
  let effXvaCheck := (xvas.filter (fun p => !h.isValidXva p)).map
    (fun p => Effect.log ("the XVA with path " ++ p ++ " is potentially broken"))
  let (st3, effC) := runItems (phase3Item h st2.vhds xvas remove fixMetadata)
    { unusedVhds := st2.vhds, unusedXvas := xvas, vhdsToJSons := [] } jsons
  let (toMerge, effD) ← phase4Plan h interrupted st3.unusedVhds st2.vhdChildren remove
  Except.ok
    { interrupted := interrupted
      vhdChildren := st2.vhdChildren
      toMerge := toMerge
      vhdsToJSons := st3.vhdsToJSons
      xvas := xvas
      unusedXvas := st3.unusedXvas
      xvaSums := xvaSums
      effects := effA ++ effB ++ effXvaCheck ++ effC ++ effD }

/-- Embedding of `cleanVm`: run the core phases, then — when the plan is
non-empty, whatever the `merge` flag — run `doMerge`, unlink unused XVAs
and orphaned XVA checksums when `remove`, and return
`{ merge: toMerge.length !== 0 }`. -/
def cleanVm (h : Handler) (vmDir : String) (flags : Flags) : Except Vhd.Err CleanResult := do
  let core ← cleanVmCore h vmDir flags.remove flags.fixMetadata
  let effMerge ←
    if core.toMerge.length ≠ 0 then
      doMerge h core.vhdsToJSons core.toMerge flags.remove flags.merge
    else Except.ok []
  let effXvas := core.unusedXvas.foldl
    (fun eff path =>
      eff ++ [Effect.log ("the XVA " ++ path ++ " is unused")] ++
      (if flags.remove then [Effect.log ("deleting unused XVA " ++ path),
        Effect.unlink path] else []))
    []
  let effSums := core.xvaSums.foldl
    (fun eff path =>
      if !(core.xvas.contains (path.dropRight 9)) then
        eff ++ [Effect.log ("the XVA checksum " ++ path ++ " is unused")] ++
        (if flags.remove then [Effect.log ("deleting unused XVA checksum " ++ path),
          Effect.unlink path] else [])
      else eff)
    []
  Except.ok
    { merge := core.toMerge.length ≠ 0
      interrupted := core.interrupted
      vhdChildren := core.vhdChildren
      toMerge := core.toMerge
      effects := core.effects ++ effMerge ++ effXvas ++ effSums }

end Cleaner

namespace Ex

open Vhd Cleaner

/-- Header of a freshly created empty sparse VHD: 512-byte blocks
(one sector per block), an empty BAT at offset 1536, no parent locators. -/
def emptyHeader : VhdHeader :=
  { tableOffset := 1536, maxTableEntries := 0, blockSize := 512, headerVersion := 1,
    checksum := 0, parentLocatorEntry := List.replicate 8 zeroLocator }

/-- A dynamic-disk footer. -/
def dynFooter : VhdFooter :=
  { currentSize := 1024, originalSize := 1024, diskType := 3, checksum := 0 }

/-- VHD state for the `writeData` failing input: `maxTableEntries = 0`
and an empty in-memory BAT, as after `readBlockAllocationTable` on an
empty sparse disk. -/
def c1State : VhdState := { header := emptyHeader, footer := dynFooter, blockTable := [] }

/-- An all-zero 2048-byte file image behind `c1State`. -/
def c1Disk : DiskFile := { data := fun _ => 0, size := 2048 }

/-- VHD state for the `ensureBatSize` failing input: one BAT entry
(`BLOCK_UNUSED`), read into memory. -/
def c2State : VhdState :=
  { header := { emptyHeader with maxTableEntries := 1, blockSize := 4096 },
    footer := dynFooter, blockTable := [255, 255, 255, 255] }

/-- File image behind `c2State`: the single on-disk BAT entry holds
`BLOCK_UNUSED` (bytes 1536-1539 are 0xFF) and every other byte is zero. -/
def c2Disk : DiskFile := { data := fun a => if 1536 ≤ a ∧ a < 1540 then 255 else 0, size := 2048 }

/-- Run `ensureBatSize(2)` on the one-entry VHD, then read the BAT back
from disk; also return the four big-endian bytes of the persisted header's
`maxTableEntries` field (file offset 512 + 28). -/
def c2Run : Except Err (List Nat × List Nat) :=
  (ensureBatSize c2State c2Disk 2).bind
    (fun p => (readBlockAllocationTable p.1 p.2).map
      (fun s => (s.blockTable, readBytes p.2 540 4)))

/-- Header with 1024-byte blocks: two sectors per block, a one-sector
bitmap, `fullBlockSize = 1536`. -/
def header1k : VhdHeader := { emptyHeader with maxTableEntries := 1, blockSize := 1024 }

/-- Child VHD with block 0 allocated at sector 4 (byte 2048). -/
def childState : VhdState :=
  { header := header1k, footer := { dynFooter with diskType := 4 }, blockTable := [0, 0, 0, 4] }

/-- Child image with a partial bitmap: only sector 0 of block 0 is set
(bitmap byte 0x80); sector 0 holds 0x22 bytes, sector 1 holds 0x33. -/
def childDiskPartial : DiskFile :=
  { data := fun a =>
      if a = 2048 then 128
      else if 2560 ≤ a ∧ a < 3072 then 34
      else if 3072 ≤ a ∧ a < 3584 then 51
      else 0
    size := 4096 }

/-- Child image with an all-zero bitmap for block 0 (data bytes 0x22). -/
def childDiskZero : DiskFile :=
  { data := fun a => if 2560 ≤ a ∧ a < 3584 then 34 else 0, size := 4096 }

/-- Parent VHD (same geometry) whose BAT slot for block 0 is
`BLOCK_UNUSED`. -/
def parentAbsent : VhdState :=
  { header := header1k, footer := dynFooter, blockTable := [255, 255, 255, 255] }

/-- An all-zero 4096-byte image behind `parentAbsent`. -/
def parentAbsentDisk : DiskFile := { data := fun _ => 0, size := 4096 }

/-- Parent VHD with block 0 allocated at sector 4. -/
def parentAlloc : VhdState :=
  { header := header1k, footer := dynFooter, blockTable := [0, 0, 0, 4] }

/-- Parent image: block 0 bitmap has sector 1 set (byte 0x40) and both
data sectors hold 0x11 bytes. -/
def parentAllocDisk : DiskFile :=
  { data := fun a =>
      if a = 2048 then 64
      else if 2560 ≤ a ∧ a < 3584 then 17
      else 0
    size := 4096 }

/-- The block value `readBlock` returns for block 0 of the partial child. -/
def childBlkPartial : BlockData :=
  { id := 0
    bitmap := listSlice (readBytes childDiskPartial 2048 1536) 0 512
    data := some ((readBytes childDiskPartial 2048 1536).drop 512)
    buffer := some (readBytes childDiskPartial 2048 1536) }

/-- The block value `readBlock` returns for block 0 of the zero-bitmap
child. -/
def childBlkZero : BlockData :=
  { id := 0
    bitmap := listSlice (readBytes childDiskZero 2048 1536) 0 512
    data := some ((readBytes childDiskZero 2048 1536).drop 512)
    buffer := some (readBytes childDiskZero 2048 1536) }

/-- The block value `readBlock` returns, in bitmap-only mode, for block 0
of the allocated parent. -/
def parentBlkBitmap : BlockData :=
  { id := 0, bitmap := readBytes parentAllocDisk 2048 512, data := none, buffer := none }

/-- Header for the parent-locator claim: locator 0 has
`platformDataSpace = 0`, locator 1 has `platformDataSpace = 512` at offset
1536. -/
def locHeader : VhdHeader :=
  { emptyHeader with
      parentLocatorEntry :=
        [{ platformCode := 1, platformDataSpace := 0, platformDataLength := 0,
            platformDataOffset := 0 },
          { platformCode := 1, platformDataSpace := 512, platformDataLength := 10,
            platformDataOffset := 1536 }] ++ List.replicate 6 zeroLocator }

/-- VHD state for the parent-locator claim. -/
def locState : VhdState := { header := locHeader, footer := dynFooter, blockTable := [] }

/-- File image for the parent-locator claim. -/
def locDisk : DiskFile := { data := fun _ => 7, size := 4096 }

end Ex

namespace ExClean

open Vhd Cleaner

/-- Handler for the interrupted-merge scenario: one vdi directory holding
`p.vhd` (dynamic), `c.vhd` (differencing, declaring `p.vhd` as its
parent), and the sidecar `.c.vhd.merge.json` named — as the specification
prescribes for `mergeVhd` — after the child of the interrupted merge; a
delta backup JSON references both VHDs, so both are used. -/
def h5 : Handler :=
  { listDir := fun dir =>
      if dir = "vm/vdis" then ["vm/vdis/j"]
      else if dir = "vm/vdis/j" then ["vm/vdis/j/v"]
      else if dir = "vm/vdis/j/v" then
        ["vm/vdis/j/v/p.vhd", "vm/vdis/j/v/c.vhd", "vm/vdis/j/v/.c.vhd.merge.json"]
      else if dir = "vm" then ["vm/backup.json"]
      else []
    isVhdFile := fun f => f == "vm/vdis/j/v/p.vhd" || f == "vm/vdis/j/v/c.vhd" ||
      f == "vm/vdis/j/v/g.vhd"
    isMetadataFile := fun f => f == "vm/backup.json"
    isXvaFile := fun _ => false
    isXvaSumFile := fun _ => false
    openVhd := fun p _ =>
      if p = "vm/vdis/j/v/c.vhd" then OpenResult.ok DISK_TYPE_DIFFERENCING (some "p.vhd")
      else OpenResult.ok 3 none
    resolveRel := fun p name =>
      if p = "vm/vdis/j/v/c.vhd" ∧ name = "p.vhd" then "vm/vdis/j/v/p.vhd" else "?"
    resolveVm := fun rel => "vm/vdis/j/v/" ++ rel
    readJson := fun _ =>
      { mode := "delta", size := some 1000, xva := none, vhds := ["p.vhd", "c.vhd"] }
    getSize := fun _ => none
    isValidXva := fun _ => true
    vhdsSize := fun _ => some 1000 }

/-- The same scenario extended with a grandchild `g.vhd` declaring `c.vhd`
as its parent, so that the sidecar-recovered path has a registered child. -/
def h5g : Handler :=
  { h5 with
    listDir := fun dir =>
      if dir = "vm/vdis" then ["vm/vdis/j"]
      else if dir = "vm/vdis/j" then ["vm/vdis/j/v"]
      else if dir = "vm/vdis/j/v" then
        ["vm/vdis/j/v/p.vhd", "vm/vdis/j/v/c.vhd", "vm/vdis/j/v/g.vhd",
          "vm/vdis/j/v/.c.vhd.merge.json"]
      else if dir = "vm" then ["vm/backup.json"]
      else []
    openVhd := fun p _ =>
      if p = "vm/vdis/j/v/c.vhd" then OpenResult.ok DISK_TYPE_DIFFERENCING (some "p.vhd")
      else if p = "vm/vdis/j/v/g.vhd" then OpenResult.ok DISK_TYPE_DIFFERENCING (some "c.vhd")
      else OpenResult.ok 3 none
    resolveRel := fun p name =>
      if p = "vm/vdis/j/v/c.vhd" ∧ name = "p.vhd" then "vm/vdis/j/v/p.vhd"
      else if p = "vm/vdis/j/v/g.vhd" ∧ name = "c.vhd" then "vm/vdis/j/v/c.vhd"
      else "?"
    readJson := fun _ =>
      { mode := "delta", size := some 1000, xva := none,
        vhds := ["p.vhd", "c.vhd", "g.vhd"] } }

/-- Handler for the metadata-size scenario: a full-mode backup JSON
recording `size: 1000000` whose linked XVA actually measures 1200000
bytes. -/
def h9 : Handler :=
  { listDir := fun dir => if dir = "vm" then ["vm/backup.json", "vm/data.xva"] else []
    isVhdFile := fun _ => false
    isMetadataFile := fun f => f == "vm/backup.json"
    isXvaFile := fun f => f == "vm/data.xva"
    isXvaSumFile := fun _ => false
    openVhd := fun _ _ => OpenResult.errOther
    resolveRel := fun _ _ => "?"
    resolveVm := fun rel => "vm/" ++ rel
    readJson := fun _ =>
      { mode := "full", size := some 1000000, xva := some "data.xva", vhds := [] }
    getSize := fun _ => some 1200000
    isValidXva := fun _ => true
    vhdsSize := fun _ => none }

/-- All-false flags: the pure report mode. -/
def reportFlags : Flags := { fixMetadata := false, remove := false, merge := false }

/-- Flags with only `fixMetadata` set. -/
def fixFlags : Flags := { fixMetadata := true, remove := false, merge := false }

/-- Flags with only `merge` set. -/
def mergeFlags : Flags := { fixMetadata := false, remove := false, merge := true }

/-- The metadata value the size-repair writes in the `h9` scenario. -/
def m9 : Metadata := { mode := "full", size := some 1200000, xva := some "data.xva", vhds := [] }

/-- The empty clean result (used as a junk value when pattern-matching a
run that provably succeeds). -/
def emptyResult : CleanResult :=
  { merge := false, interrupted := [], vhdChildren := [], toMerge := [], effects := [] }

/-- The result of the report-mode run on the interrupted-merge directory. -/
def runReport : CleanResult :=
  match cleanVm h5 ("vm") reportFlags with
  | Except.ok r => r
  | Except.error _ => emptyResult

/-- The result of the report-mode run on the grandchild directory. -/
def runGrand : CleanResult :=
  match cleanVm h5g ("vm") reportFlags with
  | Except.ok r => r
  | Except.error _ => emptyResult

/-- The result of the `fixMetadata` run on the size-mismatch directory. -/
def runFix : CleanResult :=
  match cleanVm h9 ("vm") fixFlags with
  | Except.ok r => r
  | Except.error _ => emptyResult

end ExClean

set_option maxRecDepth 100000

/-- Claim C1 (code bug evaluation): `writeData` computes
`lastBlock = ceil((offsetSectors + lengthInSectors) / sectorsPerBlock) - 1`
but calls `ensureBatSize(lastBlock)` instead of `ensureBatSize(lastBlock + 1)`,
so the BAT is never grown far enough to address the last written block.
On a fresh VHD with an empty BAT and one sector per block, writing a single
sector therefore makes `_setBatEntry` write four bytes past the end of the
BAT buffer, and the call fails with Node's `ERR_OUT_OF_RANGE` instead of
growing the BAT and persisting the data. -/
theorem writeData_last_block_unaddressable :
    Vhd.writeData Ex.c1State Ex.c1Disk 0 (List.replicate 512 170) =
      Except.error Vhd.Err.outOfRange ∧
    Vhd.sectorsPerBlock Ex.c1State.header = 1 ∧
    Ex.c1State.header.maxTableEntries = 0 ∧
    Ex.c1State.blockTable = [] := by
  exact ⟨by rfl, by rfl, by rfl, by rfl⟩

/-- Claim C2 (code bug evaluation): `ensureBatSize(2)` on a VHD with one
previous entry persists `Buffer.alloc(2 - 1, BUF_BLOCK_UNUSED)` — a single
0xFF byte — instead of the four bytes of the new `BLOCK_UNUSED` entry, so
`readBlockAllocationTable` afterwards returns the old entry followed by
`0xFF` and three stale bytes: entry 1 reads back as `0xFF000000`, not
`BLOCK_UNUSED`. (The persisted header does record `maxTableEntries = 2`:
its big-endian field at file offset 540 reads `[0, 0, 0, 2]`.) -/
theorem ensureBatSize_tail_bytes_not_persisted :
    Ex.c2Run = Except.ok ([255, 255, 255, 255, 255, 0, 0, 0], [0, 0, 0, 2]) ∧
    Vhd.getBatEntry [255, 255, 255, 255, 255, 0, 0, 0] 1 = 4278190080 ∧
    (4278190080 : Nat) ≠ Vhd.BLOCK_UNUSED := by
  exact ⟨by rfl, by rfl, by decide⟩

/-- Claim C6: for a loaded header and a locator id below 8, the file
backend's `readParentLocatorData` performs the read exactly when the
entry's `platformDataSpace` is 0, while the abstract class delegates to
the backend read exactly when it is positive; on the concrete header whose
entry 0 has no data space and whose entry 1 has 512 bytes of space, the
two functions return defined results on complementary entries, so they are
not equivalent. -/
theorem readParentLocatorData_conditions_complementary
    (s : Vhd.VhdState) (d : Vhd.DiskFile) (readImpl : Nat → Nat → List Nat) (i : Nat)
    (hi : i < 8) :
    ((∃ bs, Vhd.fileReadParentLocatorData s d i = Except.ok (some bs)) ↔
      (s.header.parentLocatorEntry.getD i Vhd.zeroLocator).platformDataSpace = 0) ∧
    ((∃ bs, Vhd.abstractReadParentLocatorData s i readImpl = Except.ok (some bs)) ↔
      0 < (s.header.parentLocatorEntry.getD i Vhd.zeroLocator).platformDataSpace) ∧
    Vhd.fileReadParentLocatorData Ex.locState Ex.locDisk 0 = Except.ok (some []) ∧
    Vhd.abstractReadParentLocatorData Ex.locState 0 (Vhd.readBytes Ex.locDisk) =
      Except.ok none ∧
    Vhd.fileReadParentLocatorData Ex.locState Ex.locDisk 1 = Except.ok none ∧
    Vhd.abstractReadParentLocatorData Ex.locState 1 (Vhd.readBytes Ex.locDisk) =
      Except.ok (some (Vhd.readBytes Ex.locDisk 1536 512)) := by
  refine ⟨?_, ?_, by rfl, by rfl, by rfl, by rfl⟩
  · constructor
    · intro ⟨bs, hbs⟩
      by_contra hsp
      simp only [Vhd.fileReadParentLocatorData, if_pos hi, if_neg hsp] at hbs
      exact Option.noConfusion (Except.ok.inj hbs)
    · intro hsp
      refine ⟨Vhd.readBytes d
        (s.header.parentLocatorEntry.getD i Vhd.zeroLocator).platformDataOffset
        (s.header.parentLocatorEntry.getD i Vhd.zeroLocator).platformDataSpace, ?_⟩
      show (if i < 8 then _ else _) = _
      rw [if_pos hi]
      show (if (s.header.parentLocatorEntry.getD i Vhd.zeroLocator).platformDataSpace = 0 then
          Except.map some (Vhd.fileRead d
            (s.header.parentLocatorEntry.getD i Vhd.zeroLocator).platformDataOffset
            (s.header.parentLocatorEntry.getD i Vhd.zeroLocator).platformDataSpace)
        else Except.ok none) = _
      rw [if_pos hsp]
      unfold Vhd.fileRead
      rw [if_pos (Or.inr hsp)]
      rfl
  · constructor
    · intro ⟨bs, hbs⟩
      by_contra hsp
      simp only [Vhd.abstractReadParentLocatorData, if_pos hi] at hbs
      rw [if_neg hsp] at hbs
      exact Option.noConfusion (Except.ok.inj hbs)
    · intro hsp
      refine ⟨readImpl (s.header.parentLocatorEntry.getD i Vhd.zeroLocator).platformDataOffset
        (s.header.parentLocatorEntry.getD i Vhd.zeroLocator).platformDataSpace, ?_⟩
      simp only [Vhd.abstractReadParentLocatorData, if_pos hi, if_pos hsp]

/-- Witness for claim C6 at locator 0 of the concrete header. -/
theorem readParentLocatorData_conditions_complementary_witness :
    (∃ bs, Vhd.fileReadParentLocatorData Ex.locState Ex.locDisk 0 = Except.ok (some bs)) ↔
      (Ex.locState.header.parentLocatorEntry.getD 0 Vhd.zeroLocator).platformDataSpace = 0 :=
  (readParentLocatorData_conditions_complementary Ex.locState Ex.locDisk
    (Vhd.readBytes Ex.locDisk) 0 (by decide)).1

/-- Claim C8: after the BAT is read, `_getBatEntry` yields `BLOCK_UNUSED`
for every id whose slot lies past the in-memory buffer; `readBlock(id,
onlyBitmap)` fails with `BlockAbsent` exactly when `_getBatEntry(id)` is
`BLOCK_UNUSED`, and otherwise returns `{id, bitmap, data?, buffer?}` read
from byte offset `batEntry * 512` — `bitmapSize` bytes in bitmap-only
mode, `fullBlockSize` bytes otherwise; `containsBlock` returns `false`
rather than failing for absent or out-of-range ids. -/
theorem readBlock_blockAbsent_iff (s : Vhd.VhdState) (d : Vhd.DiskFile) (blockId : Nat)
    (onlyBitmap : Bool) :
    (s.blockTable.length ≤ blockId * 4 →
      Vhd.getBatEntry s.blockTable blockId = Vhd.BLOCK_UNUSED) ∧
    (Vhd.readBlock s d blockId onlyBitmap = Except.error Vhd.Err.blockAbsent ↔
      Vhd.getBatEntry s.blockTable blockId = Vhd.BLOCK_UNUSED) ∧
    (∀ addr : Nat, Vhd.getBatEntry s.blockTable blockId = addr →
      addr ≠ Vhd.BLOCK_UNUSED →
      Vhd.sectorsToBytes addr +
        (if onlyBitmap then Vhd.bitmapSize s.header else Vhd.fullBlockSize s.header) ≤ d.size →
      Vhd.readBlock s d blockId onlyBitmap = Except.ok
        (if onlyBitmap then
          { id := blockId
            bitmap := Vhd.readBytes d (Vhd.sectorsToBytes addr) (Vhd.bitmapSize s.header)
            data := none, buffer := none }
        else
          { id := blockId
            bitmap := Vhd.listSlice
              (Vhd.readBytes d (Vhd.sectorsToBytes addr) (Vhd.fullBlockSize s.header)) 0
              (Vhd.bitmapSize s.header)
            data := some ((Vhd.readBytes d (Vhd.sectorsToBytes addr)
              (Vhd.fullBlockSize s.header)).drop (Vhd.bitmapSize s.header))
            buffer := some (Vhd.readBytes d (Vhd.sectorsToBytes addr)
              (Vhd.fullBlockSize s.header)) })) ∧
    (Vhd.containsBlock s blockId = false ↔
      Vhd.getBatEntry s.blockTable blockId = Vhd.BLOCK_UNUSED) := by
  refine ⟨?_, ⟨?_, ?_⟩, ?_, ?_⟩
  · intro hlen
    unfold Vhd.getBatEntry
    rw [if_neg (by omega)]
  · intro habs
    by_contra hne
    simp only [Vhd.readBlock, if_neg hne, Vhd.fileRead] at habs
    split at habs <;> split at habs <;>
      first
        | exact Except.noConfusion habs
        | exact Vhd.Err.noConfusion (Except.error.inj habs)
  · intro habs
    simp only [Vhd.readBlock, if_pos habs]
  · intro addr haddr hne hsize
    subst haddr
    simp only [Vhd.readBlock, Vhd.fileRead, if_neg hne, if_pos (Or.inl hsize)]
    cases onlyBitmap <;> rfl
  · simp only [Vhd.containsBlock]
    constructor
    · intro hfalse
      by_contra hne
      simp [hne] at hfalse
    · intro habs
      simp [habs]

/-- Witness for claim C8 at block 0 of the allocated parent VHD (bitmap
mode) and at its out-of-range block 5. -/
theorem readBlock_blockAbsent_iff_witness :
    Vhd.readBlock Ex.parentAlloc Ex.parentAllocDisk 0 true = Except.ok Ex.parentBlkBitmap ∧
    Vhd.getBatEntry Ex.parentAlloc.blockTable 5 = Vhd.BLOCK_UNUSED := by
  constructor
  · exact (readBlock_blockAbsent_iff Ex.parentAlloc Ex.parentAllocDisk 0 true).2.2.1 4
      (by rfl) (by decide) (by decide)
  · exact (readBlock_blockAbsent_iff Ex.parentAlloc Ex.parentAllocDisk 5 true).1 (by decide)

/-- Helper: the run loop of `coalesceBlock` leaves the state and disk
untouched when every remaining sector bit is clear. -/
theorem coalesceRuns_clear (s : Vhd.VhdState) (d : Vhd.DiskFile) (blk : Vhd.BlockData)
    (blockId spb : Nat) (pb : Option (List Nat)) :
    ∀ counter i, spb - i < counter →
    (∀ j, i ≤ j → j < spb → Vhd.bitmapTest blk.bitmap j = false) →
    Vhd.coalesceRuns s d blk blockId spb pb counter i = Except.ok (s, d) := by
  intro counter
  induction counter with
  | zero => intro i h _; omega
  | succ n ih =>
    intro i hlt hclear
    unfold Vhd.coalesceRuns
    by_cases hi : i < spb
    · simp only [if_pos hi, hclear i (Nat.le_refl i) hi, Bool.false_eq_true, if_false]
      exact ih (i + 1) (by omega) (fun j hj1 hj2 => hclear j (by omega) hj2)
    · simp only [if_neg hi]

/-- Claim C4 (counterexample): coalescing a child block whose bitmap has no
set bit writes nothing into the parent — the state and the disk come back
unchanged — yet the call returns 1024 (the child's `data.length`), not the
0 bytes actually written. -/
theorem coalesceBlock_zero_bitmap_returns_nonzero :
    Vhd.coalesceBlock Ex.parentAlloc Ex.parentAllocDisk Ex.childState Ex.childDiskZero 0 =
      Except.ok (Ex.parentAlloc, Ex.parentAllocDisk, 1024) ∧ (1024 : Nat) ≠ 0 := by
  exact ⟨by rfl, by decide⟩

/-- Claim C4 (amended): `coalesceBlock` returns the length of the child
block's data — `blockSize` bytes — regardless of how many bytes were
written into this VHD; in particular, for a child block whose bitmap has
no bits set, nothing is copied (the state and disk are returned unchanged)
and the data length is still returned. -/
theorem coalesceBlock_returns_data_length (s : Vhd.VhdState) (d : Vhd.DiskFile)
    (cs : Vhd.VhdState) (cd : Vhd.DiskFile) (blockId : Nat) (blk : Vhd.BlockData)
    (hread : Vhd.readBlock cs cd blockId false = Except.ok blk) :
    (∀ r, Vhd.coalesceBlock s d cs cd blockId = Except.ok r →
      r.2.2 = (blk.data.getD []).length) ∧
    ((∀ i, i < Vhd.sectorsPerBlock cs.header → Vhd.bitmapTest blk.bitmap i = false) →
      Vhd.coalesceBlock s d cs cd blockId =
        Except.ok (s, d, (blk.data.getD []).length)) := by
  constructor
  · intro r hr
    unfold Vhd.coalesceBlock at hr
    rw [hread] at hr
    simp only [Bind.bind, Except.bind] at hr
    cases hloop : Vhd.coalesceRuns s d blk blockId (Vhd.sectorsPerBlock cs.header) none
        (Vhd.sectorsPerBlock cs.header + 1) 0 with
    | error e =>
      rw [hloop] at hr
      exact Except.noConfusion hr
    | ok p =>
      rw [hloop] at hr
      have h2 : (p.1, p.2, (blk.data.getD []).length) = r := Except.ok.inj hr
      rw [← h2]
  · intro hclear
    unfold Vhd.coalesceBlock
    rw [hread]
    simp only [Bind.bind, Except.bind]
    rw [coalesceRuns_clear s d blk blockId (Vhd.sectorsPerBlock cs.header) none
      (Vhd.sectorsPerBlock cs.header + 1) 0 (by omega)
      (fun j _ hj2 => hclear j hj2)]

/-- Witness for claim C4 (amended) at the zero-bitmap child block. -/
theorem coalesceBlock_returns_data_length_witness :
    Vhd.coalesceBlock Ex.parentAlloc Ex.parentAllocDisk Ex.childState Ex.childDiskZero 0 =
      Except.ok (Ex.parentAlloc, Ex.parentAllocDisk, (Ex.childBlkZero.data.getD []).length) :=
  (coalesceBlock_returns_data_length Ex.parentAlloc Ex.parentAllocDisk Ex.childState
    Ex.childDiskZero 0 Ex.childBlkZero (by rfl)).2 (by decide)

/-- Claim C3 (counterexample): for a child block whose bitmap is a partial
run — sector 0 set, sector 1 clear — and a parent whose BAT slot for that
block is `BLOCK_UNUSED`, `coalesceBlock` does not write the set sector
into the parent: the lazy `readBlock(blockId, onlyBitmap=true)` on the
parent fails with `BlockAbsent`, so the whole call fails. -/
theorem coalesceBlock_partial_absent_parent_fails :
    Vhd.coalesceBlock Ex.parentAbsent Ex.parentAbsentDisk Ex.childState Ex.childDiskPartial 0 =
      Except.error Vhd.Err.blockAbsent ∧
    Vhd.bitmapTest Ex.childBlkPartial.bitmap 0 = true ∧
    Vhd.bitmapTest Ex.childBlkPartial.bitmap 1 = false ∧
    Vhd.getBatEntry Ex.parentAbsent.blockTable 0 = Vhd.BLOCK_UNUSED := by
  exact ⟨by rfl, by rfl, by rfl, by decide⟩

/-- Helper: effects accumulated by `runItems` all satisfy `P` when each
step only emits effects satisfying `P`. -/
theorem runItems_effects {σ α : Type} (P : Cleaner.Effect → Prop)
    (f : σ → α → σ × List Cleaner.Effect)
    (hf : ∀ st x e, e ∈ (f st x).2 → P e) :
    ∀ (xs : List α) (acc : σ × List Cleaner.Effect), (∀ e ∈ acc.2, P e) →
    ∀ e ∈ (xs.foldl (fun acc x => let r := f acc.1 x; (r.1, acc.2 ++ r.2)) acc).2, P e := by
  intro xs
  induction xs with
  | nil => intro acc hacc e he; exact hacc e he
  | cons x xs ih =>
    intro acc hacc e he
    refine ih (let r := f acc.1 x; (r.1, acc.2 ++ r.2)) ?_ e he
    intro e2 he2
    rcases List.mem_append.mp he2 with h | h
    · exact hacc e2 h
    · exact hf acc.1 x e2 h

/-- Helper: each step of the broken-VHD phase emits only logs, plus
unlinks when `remove` is set. -/
theorem phase1Item_effects (h : Cleaner.Handler) (intr : List String) (remove : Bool)
    (st : Cleaner.Phase1St) (p : String) :
    ∀ e ∈ (Cleaner.phase1Item h intr remove st p).2,
      Cleaner.Effect.isMutation e = false ∨
        (remove = true ∧ ∃ q, e = Cleaner.Effect.unlink q) := by
  intro e he
  unfold Cleaner.phase1Item at he
  split at he
  · -- errAssertion
    split at he
    · rename_i hrem
      simp at he
      rcases he with he | he | he
      · rw [he]; left; rfl
      · rw [he]; left; rfl
      · rw [he]; right; exact ⟨hrem, p, rfl⟩
    · simp at he
      rw [he]; left; rfl
  · -- errOther
    simp at he
    rw [he]; left; rfl
  · -- ok
    split at he
    · simp only at he
      split at he
      · simp at he
        rw [he]; left; rfl
      · simp at he
    · simp at he

/-- Helper: the orphan-pruning recursion emits only logs, plus unlinks
when `remove` is set. -/
theorem deleteIfOrphan_effects (remove : Bool) :
    ∀ (fuel : Nat) (parents : List (String × String)) (vhds : List String) (p : String),
    ∀ e ∈ (Cleaner.deleteIfOrphan remove fuel parents vhds p).2.2,
      Cleaner.Effect.isMutation e = false ∨
        (remove = true ∧ ∃ q, e = Cleaner.Effect.unlink q) := by
  intro fuel
  induction fuel with
  | zero => intro parents vhds p e he; simp [Cleaner.deleteIfOrphan] at he
  | succ n ih =>
    intro parents vhds p e he
    unfold Cleaner.deleteIfOrphan at he
    split at he
    · simp at he
    · simp only at he
      split at he
      · exact ih _ _ _ e he
      · rcases List.mem_append.mp he with h1 | h1
        · rcases List.mem_append.mp h1 with h2 | h2
          · exact ih _ _ _ e h2
          · simp at h2
            rw [h2]; left; rfl
        · split at h1
          · rename_i hrem
            simp at h1
            rcases h1 with h1 | h1
            · rw [h1]; left; rfl
            · rw [h1]; right; exact ⟨hrem, p, rfl⟩
          · simp at h1

/-- Helper: the orphan-pruning phase emits only logs, plus unlinks when
`remove` is set. -/
theorem phase2Orphans_effects (remove : Bool) (st : Cleaner.Phase1St) :
    ∀ e ∈ (Cleaner.phase2Orphans remove st).2,
      Cleaner.Effect.isMutation e = false ∨
        (remove = true ∧ ∃ q, e = Cleaner.Effect.unlink q) := by
  unfold Cleaner.phase2Orphans
  simp only
  generalize st.vhdParents.map (fun p => p.1) = keys
  have hgen : ∀ (keys : List String) (acc : List (String × String) × List String ×
      List Cleaner.Effect),
      (∀ e ∈ acc.2.2, Cleaner.Effect.isMutation e = false ∨
        (remove = true ∧ ∃ q, e = Cleaner.Effect.unlink q)) →
      ∀ e ∈ (keys.foldl
        (fun acc child =>
          let (parents, vhds, eff) := acc
          if (Cleaner.alookup parents child).isSome then
            let (parents1, vhds1, eff1) :=
              Cleaner.deleteIfOrphan remove (parents.length + 1) parents vhds child
            (parents1, vhds1, eff ++ eff1)
          else acc) acc).2.2,
      Cleaner.Effect.isMutation e = false ∨
        (remove = true ∧ ∃ q, e = Cleaner.Effect.unlink q) := by
    intro keys
    induction keys with
    | nil => intro acc hacc e he; exact hacc e he
    | cons k ks ih =>
      intro acc hacc e he
      refine ih _ ?_ e he
      intro e2 he2
      simp only at he2
      split at he2
      · rcases List.mem_append.mp he2 with h1 | h1
        · exact hacc e2 h1
        · exact deleteIfOrphan_effects remove _ _ _ _ e2 h1
      · exact hacc e2 he2
  intro e he
  exact hgen keys (st.vhdParents, st.vhds, []) (by intro e2 he2; simp at he2) e he

/-- Helper: the size-repair tail emits a log, plus — only when
`fixMetadata` is set and the recorded size is undefined or strictly below
the computed one — the metadata rewrite carrying the computed size. -/
theorem phase3SizeEffects_mem (fixMetadata : Bool) (json : String)
    (metadata : Cleaner.Metadata) (size : Option Nat) :
    ∀ e ∈ Cleaner.phase3SizeEffects fixMetadata json metadata size,
      Cleaner.Effect.isMutation e = false ∨
      (∃ sv, size = some sv ∧
        e = Cleaner.Effect.writeFile json { metadata with size := some sv } ∧
        fixMetadata = true ∧ Cleaner.undefinedOrBelow metadata.size sv = true) := by
  intro e he
  unfold Cleaner.phase3SizeEffects at he
  split at he
  · simp at he
  · split at he
    · rcases List.mem_append.mp he with h1 | h1
      · simp at h1
        rw [h1]; left; rfl
      · split at h1
        · rename_i hguard
          simp at h1
          simp only [Bool.and_eq_true] at hguard
          rw [h1]; right; exact ⟨_, rfl, rfl, hguard.1, hguard.2⟩
        · simp at h1
    · simp at he

/-- Helper: each step of the metadata phase emits only logs, unlinks of
its own JSON when `remove` is set, and — when `fixMetadata` is set and the
recorded size is undefined or strictly below the computed one — the
rewrite of its own JSON with the computed size. -/
theorem phase3Item_effects (h : Cleaner.Handler) (vhds xvas : List String)
    (remove fixMetadata : Bool) (st : Cleaner.Phase3St) (json : String) :
    ∀ e ∈ (Cleaner.phase3Item h vhds xvas remove fixMetadata st json).2,
      Cleaner.Effect.isMutation e = false ∨
      (remove = true ∧ e = Cleaner.Effect.unlink json) ∨
      (∃ sv, e = Cleaner.Effect.writeFile json { h.readJson json with size := some sv } ∧
        fixMetadata = true ∧
        Cleaner.undefinedOrBelow (h.readJson json).size sv = true) := by
  intro e he
  unfold Cleaner.phase3Item at he
  simp only at he
  have hremlist : ∀ (msg1 msg2 : String),
      e ∈ [Cleaner.Effect.log msg1] ++
        (if remove = true then [Cleaner.Effect.log msg2, Cleaner.Effect.unlink json]
          else []) →
      Cleaner.Effect.isMutation e = false ∨
        (remove = true ∧ e = Cleaner.Effect.unlink json) ∨
        (∃ sv, e = Cleaner.Effect.writeFile json { h.readJson json with size := some sv } ∧
          fixMetadata = true ∧
          Cleaner.undefinedOrBelow (h.readJson json).size sv = true) := by
    intro msg1 msg2 hmem
    rcases List.mem_append.mp hmem with h1 | h1
    · simp at h1
      rw [h1]; left; rfl
    · split at h1
      · rename_i hrem
        simp at h1
        rcases h1 with h1 | h1
        · rw [h1]; left; rfl
        · rw [h1]; right; left; exact ⟨hrem, rfl⟩
      · simp at h1
  have hsizetail : ∀ sz, e ∈ Cleaner.phase3SizeEffects fixMetadata json (h.readJson json) sz →
      Cleaner.Effect.isMutation e = false ∨
        (remove = true ∧ e = Cleaner.Effect.unlink json) ∨
        (∃ sv, e = Cleaner.Effect.writeFile json { h.readJson json with size := some sv } ∧
          fixMetadata = true ∧
          Cleaner.undefinedOrBelow (h.readJson json).size sv = true) := by
    intro sz hmem
    rcases phase3SizeEffects_mem fixMetadata json (h.readJson json) sz e hmem with h1 | h1
    · left; exact h1
    · right; right
      rcases h1 with ⟨sv, _, heq, hfix, hbelow⟩
      exact ⟨sv, heq, hfix, hbelow⟩
  split at he
  · -- mode = full
    split at he
    · -- xva present
      rcases List.mem_append.mp he with h1 | h1
      · split at h1
        · simp at h1
          rw [h1]; left; rfl
        · simp at h1
      · exact hsizetail _ h1
    · -- xva missing
      rcases List.mem_append.mp he with h1 | h1
      · exact hremlist _ _ h1
      · exact hsizetail _ h1
  · -- mode not full
    split at he
    · -- mode = delta
      split at he
      · rcases List.mem_append.mp he with h1 | h1
        · split at h1
          · simp at h1
            rw [h1]; left; rfl
          · simp at h1
        · exact hsizetail _ h1
      · rcases List.mem_append.mp he with h1 | h1
        · exact hremlist _ _ h1
        · exact hsizetail _ h1
    · -- other modes
      rcases List.mem_append.mp he with h1 | h1
      · simp at h1
      · exact hsizetail _ h1

/-- Helper: the chain walk of the merge-plan phase emits only logs, plus
unlinks when `remove` is set. -/
theorem getUsedChildChain_effects (unused : List String)
    (vhdChildren : List (String × String)) (remove : Bool) :
    ∀ (fuel : Nat) (st : Cleaner.Phase4St) (vhd : String) st2 chainOpt eff,
      Cleaner.getUsedChildChain unused vhdChildren remove fuel st vhd =
        Except.ok (st2, chainOpt, eff) →
      ∀ e ∈ eff, Cleaner.Effect.isMutation e = false ∨
        (remove = true ∧ ∃ q, e = Cleaner.Effect.unlink q) := by
  intro fuel
  induction fuel with
  | zero =>
    intro st vhd st2 chainOpt eff hok
    exact Except.noConfusion hok
  | succ n ih =>
    intro st vhd st2 chainOpt eff hok e he
    unfold Cleaner.getUsedChildChain at hok
    have hdeleteMem : ∀ e2 : Cleaner.Effect,
        e2 ∈ [Cleaner.Effect.log ("the VHD " ++ vhd ++ " is unused")] ++
          (if remove = true then [Cleaner.Effect.log ("deleting unused VHD " ++ vhd),
            Cleaner.Effect.unlink vhd] else []) →
        Cleaner.Effect.isMutation e2 = false ∨
          (remove = true ∧ ∃ q, e2 = Cleaner.Effect.unlink q) := by
      intro e2 he2
      rcases List.mem_append.mp he2 with h1 | h1
      · simp at h1
        rw [h1]; left; rfl
      · split at h1
        · rename_i hrem
          simp at h1
          rcases h1 with h1 | h1
          · rw [h1]; left; rfl
          · rw [h1]; right; exact ⟨hrem, vhd, rfl⟩
        · simp at h1
    split at hok
    · -- memo hit: no effects
      have heff : ([] : List Cleaner.Effect) = eff :=
        congrArg (fun t => t.2.2) (Except.ok.inj hok)
      rw [← heff] at he
      simp at he
    · split at hok
      · -- used vhd: no effects
        have heff : ([] : List Cleaner.Effect) = eff :=
          congrArg (fun t => t.2.2) (Except.ok.inj hok)
        rw [← heff] at he
        simp at he
      · -- unused: walk the child
        simp only at hok
        split at hok
        · -- a child is registered
          rename_i child hchild
          cases hrec : Cleaner.getUsedChildChain unused vhdChildren remove n
              { st with toCheck := st.toCheck.filter (fun v => v ≠ vhd) } child with
          | error err =>
            rw [hrec] at hok
            simp only [Bind.bind, Except.bind] at hok
            exact Except.noConfusion hok
          | ok trip =>
            rw [hrec] at hok
            simp only [Bind.bind, Except.bind] at hok
            rcases htrip : trip with ⟨st5, chainOpt5, eff5⟩
            rw [htrip] at hok hrec
            cases hco : chainOpt5 with
            | some chain5 =>
              rw [hco] at hok
              have heff : eff5 = eff :=
                congrArg (fun t => t.2.2) (Except.ok.inj hok)
              rw [← heff] at he
              exact ih _ _ _ _ _ hrec e he
            | none =>
              rw [hco] at hok
              simp only [Except.map] at hok
              have heff : eff5 ++
                  ([Cleaner.Effect.log ("the VHD " ++ vhd ++ " is unused")] ++
                  (if remove = true then
                    [Cleaner.Effect.log ("deleting unused VHD " ++ vhd),
                      Cleaner.Effect.unlink vhd] else [])) = eff :=
                congrArg (fun t => t.2.2) (Except.ok.inj hok)
              rw [← heff] at he
              rcases List.mem_append.mp he with h1 | h1
              · exact ih _ _ _ _ _ hrec e h1
              · exact hdeleteMem e h1
        · -- no child registered
          have heff : ([Cleaner.Effect.log ("the VHD " ++ vhd ++ " is unused")] ++
              (if remove = true then [Cleaner.Effect.log ("deleting unused VHD " ++ vhd),
                Cleaner.Effect.unlink vhd] else [])) = eff :=
            congrArg (fun t => t.2.2) (Except.ok.inj hok)
          rw [← heff] at he
          exact hdeleteMem e he

/-- Helper: effects accumulated through an `Except`-valued fold all
satisfy `P` when every successful step preserves that property of the
accumulated effect list. -/
theorem foldlM_effects {σ α : Type} (P : Cleaner.Effect → Prop)
    (f : (σ × List Cleaner.Effect) → α → Except Vhd.Err (σ × List Cleaner.Effect))
    (hf : ∀ acc x res, f acc x = Except.ok res → (∀ e ∈ acc.2, P e) → ∀ e ∈ res.2, P e) :
    ∀ (xs : List α) (acc : σ × List Cleaner.Effect), (∀ e ∈ acc.2, P e) →
    ∀ res, List.foldlM f acc xs = Except.ok res → ∀ e ∈ res.2, P e := by
  intro xs
  induction xs with
  | nil =>
    intro acc hacc res hres
    have h2 : acc = res := Except.ok.inj hres
    rw [← h2]; exact hacc
  | cons x xs ih =>
    intro acc hacc res hres
    rw [List.foldlM_cons] at hres
    simp only [Bind.bind, Except.bind] at hres
    cases hstep : f acc x with
    | error err =>
      rw [hstep] at hres
      exact Except.noConfusion hres
    | ok mid =>
      rw [hstep] at hres
      exact ih mid (hf acc x mid hstep hacc) res hres

/-- Helper: the merge-plan phase emits only logs, plus unlinks when
`remove` is set. -/
theorem phase4Plan_effects (h : Cleaner.Handler) (interrupted unusedVhds : List String)
    (vhdChildren : List (String × String)) (remove : Bool) (toMerge : List Cleaner.Chain)
    (eff : List Cleaner.Effect)
    (hok : Cleaner.phase4Plan h interrupted unusedVhds vhdChildren remove =
      Except.ok (toMerge, eff)) :
    ∀ e ∈ eff, Cleaner.Effect.isMutation e = false ∨
      (remove = true ∧ ∃ q, e = Cleaner.Effect.unlink q) := by
  unfold Cleaner.phase4Plan at hok
  simp only [Bind.bind, Except.bind] at hok
  split at hok
  · exact Except.noConfusion hok
  · rename_i pair hpair
    have heff : pair.2 = eff := congrArg (fun t => t.2) (Except.ok.inj hok)
    intro e he
    rw [← heff] at he
    refine foldlM_effects
      (fun e2 => Cleaner.Effect.isMutation e2 = false ∨
        (remove = true ∧ ∃ q, e2 = Cleaner.Effect.unlink q)) _ ?_ unusedVhds _
      (by intro e2 he2; simp at he2) pair hpair e he
    intro acc x res2 hstep hacc e2 he2
    split at hstep
    · try simp only [Bind.bind, Except.bind] at hstep
      split at hstep
      · exact Except.noConfusion hstep
      · rename_i trip htrip
        rcases htrip2 : trip with ⟨st5, chainOpt5, eff5⟩
        rw [htrip2] at htrip hstep
        have heff2 : acc.2 ++ eff5 = res2.2 :=
          congrArg (fun t => t.2) (Except.ok.inj hstep)
        rw [← heff2] at he2
        rcases List.mem_append.mp he2 with h1 | h1
        · exact hacc e2 h1
        · exact getUsedChildChain_effects unusedVhds vhdChildren remove _ _ _ _ _ _ htrip e2 h1
    · have h2 : acc = res2 := Except.ok.inj hstep
      rw [← h2] at he2
      exact hacc e2 he2
/-- Helper: `mergeVhdChain` emits only logs, plus the merge and rename
when `merge` is set. -/
theorem mergeVhdChainM_effects (remove merge : Bool) (chain : Cleaner.Chain)
    (res : Option Nat × List Cleaner.Effect)
    (hok : Cleaner.mergeVhdChainM remove merge chain = Except.ok res) :
    ∀ e ∈ res.2, Cleaner.Effect.isMutation e = false ∨
      (merge = true ∧ ((∃ a b, e = Cleaner.Effect.mergeVhd a b) ∨
        (∃ a b, e = Cleaner.Effect.rename a b))) := by
  intro e he
  unfold Cleaner.mergeVhdChainM at hok
  split at hok
  · simp only at hok
    split at hok
    · rename_i hmerge
      have heff : _ = res := Except.ok.inj hok
      rw [← heff] at he
      simp only at he
      rcases List.mem_append.mp he with h1 | h1
      · rcases List.mem_map.mp h1 with ⟨p2, _, hp2⟩
        rw [← hp2]; left; rfl
      · simp at h1
        rcases h1 with h1 | h1 | h1
        · rw [h1]; left; rfl
        · rw [h1]; right; exact ⟨hmerge, Or.inl ⟨_, _, rfl⟩⟩
        · rw [h1]; right; exact ⟨hmerge, Or.inr ⟨_, _, rfl⟩⟩
    · have heff : _ = res := Except.ok.inj hok
      rw [← heff] at he
      simp only at he
      rcases List.mem_map.mp he with ⟨p2, _, hp2⟩
      rw [← hp2]; left; rfl
  · exact Except.noConfusion hok

/-- Helper: `doMerge` emits only logs, merge/rename operations when
`merge` is set, and metadata rewrites that only occur when the recorded
size is undefined (the post-merge `computeVhdsSize` call always throws, so
the computed size stays undefined and the guard
`metadata.size < size || metadata.size === undefined` reduces to the
latter test). -/
theorem doMerge_effects (h : Cleaner.Handler) (vhdsToJSons : List (String × String))
    (toMerge : List Cleaner.Chain) (remove merge : Bool) (eff : List Cleaner.Effect)
    (hok : Cleaner.doMerge h vhdsToJSons toMerge remove merge = Except.ok eff) :
    ∀ e ∈ eff, Cleaner.Effect.isMutation e = false ∨
      (merge = true ∧ ((∃ a b, e = Cleaner.Effect.mergeVhd a b) ∨
        (∃ a b, e = Cleaner.Effect.rename a b))) ∨
      (∃ path, e = Cleaner.Effect.writeFile path { h.readJson path with size := none } ∧
        (h.readJson path).size = none) := by
  have P2 : ∀ (paths : List String) (acc : List Cleaner.Effect),
      (∀ e ∈ acc, Cleaner.Effect.isMutation e = false ∨
        (merge = true ∧ ((∃ a b, e = Cleaner.Effect.mergeVhd a b) ∨
          (∃ a b, e = Cleaner.Effect.rename a b))) ∨
        (∃ path, e = Cleaner.Effect.writeFile path
            { h.readJson path with size := none } ∧
          (h.readJson path).size = none)) →
      ∀ e ∈ paths.foldl
        (fun eff metadataPath =>
          let metadata := h.readJson metadataPath
          let size : Option Nat := none
          let effW :=
            match size with
            | some sv =>
              if Cleaner.strictlyBelow metadata.size sv || metadata.size == none then
                [Cleaner.Effect.writeFile metadataPath { metadata with size := some sv }]
              else []
            | none =>
              if metadata.size == none then
                [Cleaner.Effect.writeFile metadataPath { metadata with size := none }]
              else []
          eff ++ [Cleaner.Effect.log ("failed to get size of " ++ metadataPath ++
            " after merge")] ++ effW) acc,
      Cleaner.Effect.isMutation e = false ∨
        (merge = true ∧ ((∃ a b, e = Cleaner.Effect.mergeVhd a b) ∨
          (∃ a b, e = Cleaner.Effect.rename a b))) ∨
        (∃ path, e = Cleaner.Effect.writeFile path
            { h.readJson path with size := none } ∧
          (h.readJson path).size = none) := by
    intro paths
    induction paths with
    | nil => intro acc hacc e he; exact hacc e he
    | cons p ps ih =>
      intro acc hacc e he
      refine ih _ ?_ e he
      intro e2 he2
      simp only at he2
      rcases List.mem_append.mp he2 with h1 | h1
      · rcases List.mem_append.mp h1 with h2 | h2
        · exact hacc e2 h2
        · simp at h2
          rw [h2]; left; rfl
      · split at h1
        · rename_i hnone
          simp at h1
          rw [h1]; right; right
          exact ⟨p, rfl, by simpa using hnone⟩
        · simp at h1
  unfold Cleaner.doMerge at hok
  simp only [Bind.bind, Except.bind] at hok
  split at hok
  · exact Except.noConfusion hok
  · rename_i pair hpair
    have heff := Except.ok.inj hok
    intro e he
    rw [← heff] at he
    rcases List.mem_append.mp he with h1 | h1
    · -- effects of the per-chain fold
      refine foldlM_effects
        (fun e2 => Cleaner.Effect.isMutation e2 = false ∨
          (merge = true ∧ ((∃ a b, e2 = Cleaner.Effect.mergeVhd a b) ∨
            (∃ a b, e2 = Cleaner.Effect.rename a b))) ∨
          (∃ path, e2 = Cleaner.Effect.writeFile path
              { h.readJson path with size := none } ∧
            (h.readJson path).size = none)) _ ?_ toMerge _
        (by intro e2 he2; simp at he2) pair hpair e h1
      intro acc x res2 hstep hacc e2 he2
      simp only [Bind.bind, Except.bind] at hstep
      split at hstep
      · exact Except.noConfusion hstep
      · rename_i mres hmres
        split at hstep
        · have heff2 : acc.2 ++ mres.2 = res2.2 :=
            congrArg (fun t => t.2) (Except.ok.inj hstep)
          rw [← heff2] at he2
          rcases List.mem_append.mp he2 with h2 | h2
          · exact hacc e2 h2
          · rcases mergeVhdChainM_effects remove merge x mres hmres e2 h2 with h3 | h3
            · left; exact h3
            · right; left; exact h3
        · have heff2 : acc.2 ++ mres.2 = res2.2 :=
            congrArg (fun t => t.2) (Except.ok.inj hstep)
          rw [← heff2] at he2
          rcases List.mem_append.mp he2 with h2 | h2
          · exact hacc e2 h2
          · rcases mergeVhdChainM_effects remove merge x mres hmres e2 h2 with h3 | h3
            · left; exact h3
            · right; left; exact h3
    · -- effects of the metadata-update fold
      exact P2 pair.1 [] (by intro e2 he2; simp at he2) e h1

/-- Helper: effects accumulated by a plain fold all satisfy `P` when each
step only appends effects satisfying `P`. -/
theorem foldl_append_effects {α : Type} (P : Cleaner.Effect → Prop)
    (g : List Cleaner.Effect → α → List Cleaner.Effect)
    (hg : ∀ eff x e, e ∈ g eff x → e ∈ eff ∨ P e) :
    ∀ (xs : List α) (acc : List Cleaner.Effect), (∀ e ∈ acc, P e) →
    ∀ e ∈ xs.foldl g acc, P e := by
  intro xs
  induction xs with
  | nil => intro acc hacc e he; exact hacc e he
  | cons x xs ih =>
    intro acc hacc e he
    refine ih (g acc x) ?_ e he
    intro e2 he2
    rcases hg acc x e2 he2 with h1 | h1
    · exact hacc e2 h1
    · exact h1

/-- Helper: without the `merge` flag, `mergeVhdChain` merges nothing and
only logs. -/
theorem mergeVhdChainM_report (remove : Bool) (chain : Cleaner.Chain)
    (res : Option Nat × List Cleaner.Effect)
    (hok : Cleaner.mergeVhdChainM remove false chain = Except.ok res) :
    res.1 = none ∧ ∀ e ∈ res.2, Cleaner.Effect.isMutation e = false := by
  unfold Cleaner.mergeVhdChainM at hok
  split at hok
  · simp only [Bool.false_eq_true, if_false] at hok
    have h2 := Except.ok.inj hok
    constructor
    · rw [← congrArg (fun t : Option Nat × List Cleaner.Effect => t.1) h2]
    · intro e he
      have heff : ((chain.drop 1).reverse.map
          (fun p => Cleaner.Effect.log ("the parent " ++ (p.getD ("undefined")) ++
            " of the child is unused"))) = res.2 :=
        congrArg (fun t : Option Nat × List Cleaner.Effect => t.2) h2
      rw [← heff] at he
      rcases List.mem_map.mp he with ⟨p2, _, hp2⟩
      rw [← hp2]; rfl
  · exact Except.noConfusion hok

/-- Helper: without the `merge` flag, `doMerge` only logs: no chain
reports a merge, so the metadata-update loop runs over an empty list. -/
theorem doMerge_report (h : Cleaner.Handler) (vhdsToJSons : List (String × String))
    (toMerge : List Cleaner.Chain) (remove : Bool) (eff : List Cleaner.Effect)
    (hok : Cleaner.doMerge h vhdsToJSons toMerge remove false = Except.ok eff) :
    ∀ e ∈ eff, Cleaner.Effect.isMutation e = false := by
  have hfold : ∀ (xs : List Cleaner.Chain) (acc : List String × List Cleaner.Effect),
      acc.1 = [] → (∀ e ∈ acc.2, Cleaner.Effect.isMutation e = false) →
      ∀ res, (xs.foldlM
        (fun (acc : List String × List Cleaner.Effect) chain => do
          let (merged, eff) ← Cleaner.mergeVhdChainM remove false chain
          match merged with
          | some _ =>
            let key :=
              match chain.headD none with
              | some p => (Cleaner.alookup vhdsToJSons p).getD ("undefined")
              | none => "undefined"
            Except.ok ((if acc.1.contains key then acc.1 else acc.1 ++ [key]), acc.2 ++ eff)
          | none => Except.ok (acc.1, acc.2 ++ eff)) acc) = Except.ok res →
      res.1 = [] ∧ ∀ e ∈ res.2, Cleaner.Effect.isMutation e = false := by
    intro xs
    induction xs with
    | nil =>
      intro acc hacc1 hacc2 res hres
      have h2 : acc = res := Except.ok.inj hres
      rw [← h2]; exact ⟨hacc1, hacc2⟩
    | cons x xs ih =>
      intro acc hacc1 hacc2 res hres
      rw [List.foldlM_cons] at hres
      simp only [Bind.bind, Except.bind] at hres
      cases hstep : Cleaner.mergeVhdChainM remove false x with
      | error err =>
        rw [hstep] at hres
        exact Except.noConfusion hres
      | ok mres =>
        rw [hstep] at hres
        rcases mergeVhdChainM_report remove x mres hstep with ⟨hnone, hlogs⟩
        rcases hmres : mres with ⟨merged, meff⟩
        rw [hmres] at hres hnone hlogs
        simp only at hnone
        rw [hnone] at hres
        refine ih (acc.1, acc.2 ++ meff) hacc1 ?_ res hres
        intro e2 he2
        rcases List.mem_append.mp he2 with h1 | h1
        · exact hacc2 e2 h1
        · exact hlogs e2 h1
  unfold Cleaner.doMerge at hok
  simp only [Bind.bind, Except.bind] at hok
  split at hok
  · exact Except.noConfusion hok
  · rename_i pair hpair
    have heff := Except.ok.inj hok
    intro e he
    rw [← heff] at he
    rcases hfold toMerge ([], []) rfl (by intro e2 he2; simp at he2) pair hpair
      with ⟨hp1, hp2⟩
    rcases List.mem_append.mp he with h1 | h1
    · exact hp2 e h1
    · rw [hp1] at h1
      simp at h1

/-- Helper: every effect of the core `cleanVm` phases is a log, an unlink
under the `remove` flag, or a metadata rewrite under the `fixMetadata`
flag whose new size is the computed one and strictly above (or replacing
an undefined) recorded size. -/
theorem cleanVmCore_effects (h : Cleaner.Handler) (vmDir : String)
    (remove fixMetadata : Bool) (core : Cleaner.CoreResult)
    (hok : Cleaner.cleanVmCore h vmDir remove fixMetadata = Except.ok core) :
    ∀ e ∈ core.effects, Cleaner.Effect.isMutation e = false ∨
      (remove = true ∧ ∃ q, e = Cleaner.Effect.unlink q) ∨
      (∃ json sv, e = Cleaner.Effect.writeFile json
          { h.readJson json with size := some sv } ∧
        fixMetadata = true ∧
        Cleaner.undefinedOrBelow (h.readJson json).size sv = true) := by
  unfold Cleaner.cleanVmCore at hok
  split at hok
  rename_i vhdsListed interrupted hLV
  split at hok
  rename_i st1 effA hA
  split at hok
  rename_i st2 effB hB
  simp only [Bind.bind, Except.bind] at hok
  split at hok
  · exact Except.noConfusion hok
  · rename_i planRes hplanOk
    have hcore := Except.ok.inj hok
    intro e he
    rw [← hcore] at he
    rcases List.mem_append.mp he with h1 | h1
    · rcases List.mem_append.mp h1 with h2 | h2
      · rcases List.mem_append.mp h2 with h3 | h3
        · rcases List.mem_append.mp h3 with h4 | h4
          · -- effA: the broken-VHD phase
            have heqA : effA = (Cleaner.runItems
                (Cleaner.phase1Item h interrupted remove)
                { vhds := [], vhdParents := [], vhdChildren := [] } vhdsListed).2 := by
              rw [hA]
            rw [heqA] at h4
            unfold Cleaner.runItems at h4
            rcases runItems_effects
              (fun e2 => Cleaner.Effect.isMutation e2 = false ∨
                (remove = true ∧ ∃ q, e2 = Cleaner.Effect.unlink q))
              (Cleaner.phase1Item h interrupted remove)
              (fun st x e2 he2 => phase1Item_effects h interrupted remove st x e2 he2)
              vhdsListed ({ vhds := [], vhdParents := [], vhdChildren := [] }, [])
              (by intro e2 he2; simp at he2) e h4 with h5 | h5
            · left; exact h5
            · right; left; exact h5
          · -- effB: the orphan phase
            have heqB : effB = (Cleaner.phase2Orphans remove st1).2 := by
              rw [hB]
            rw [heqB] at h4
            rcases phase2Orphans_effects remove st1 e h4 with h5 | h5
            · left; exact h5
            · right; left; exact h5
        · -- the XVA validity logs
          rcases List.mem_map.mp h3 with ⟨p2, _, hp2⟩
          left
          rw [← hp2]; rfl
      · -- effC: the metadata phase
        unfold Cleaner.runItems at h2
        have hstep : ∀ st x e2, e2 ∈ ((Cleaner.phase3Item h st2.vhds
            (((h.listDir vmDir).filter (fun p => !h.isMetadataFile p)).filter h.isXvaFile)
            remove fixMetadata) st x).2 →
            (Cleaner.Effect.isMutation e2 = false ∨
              (remove = true ∧ ∃ q, e2 = Cleaner.Effect.unlink q) ∨
              (∃ json sv, e2 = Cleaner.Effect.writeFile json
                  { h.readJson json with size := some sv } ∧
                fixMetadata = true ∧
                Cleaner.undefinedOrBelow (h.readJson json).size sv = true)) := by
          intro st x e2 he2
          rcases phase3Item_effects h st2.vhds _ remove fixMetadata st x e2 he2
            with h5 | h5 | h5
          · left; exact h5
          · right; left; exact ⟨h5.1, x, h5.2⟩
          · right; right
            rcases h5 with ⟨sv, heq5, hfix5, hbelow5⟩
            exact ⟨x, sv, heq5, hfix5, hbelow5⟩
        exact runItems_effects _ _ hstep
          ((h.listDir vmDir).filter h.isMetadataFile) (_, [])
          (by intro e2 he2; simp at he2) e h2
    · -- effD: the merge plan
      rcases phase4Plan_effects h interrupted _ st2.vhdChildren remove
        planRes.1 planRes.2 (by rw [← hplanOk]) e h1 with h5 | h5
      · left; exact h5
      · right; left; exact h5

/-- Helper: the unused-XVA and orphan-checksum folds at the end of
`cleanVm` emit only logs, plus unlinks when `remove` is set. -/
theorem cleanVm_tail_folds (remove : Bool) (P : Cleaner.Effect → Prop)
    (hlog : ∀ msg, P (Cleaner.Effect.log msg))
    (hunl : remove = true → ∀ q, P (Cleaner.Effect.unlink q)) :
    (∀ (xs : List String) e, e ∈ xs.foldl
      (fun eff path =>
        eff ++ [Cleaner.Effect.log ("the XVA " ++ path ++ " is unused")] ++
        (if remove = true then [Cleaner.Effect.log ("deleting unused XVA " ++ path),
          Cleaner.Effect.unlink path] else [])) [] → P e) ∧
    (∀ (xvas xs : List String) e, e ∈ xs.foldl
      (fun eff path =>
        if !(xvas.contains (path.dropRight 9)) then
          eff ++ [Cleaner.Effect.log ("the XVA checksum " ++ path ++ " is unused")] ++
          (if remove = true then
            [Cleaner.Effect.log ("deleting unused XVA checksum " ++ path),
              Cleaner.Effect.unlink path] else [])
        else eff) [] → P e) := by
  constructor
  · intro xs e he
    refine foldl_append_effects P _ ?_ xs [] (by intro e2 he2; simp at he2) e he
    intro eff x e2 he2
    rcases List.mem_append.mp he2 with h1 | h1
    · rcases List.mem_append.mp h1 with h2 | h2
      · left; exact h2
      · right; simp at h2; rw [h2]; exact hlog _
    · right
      split at h1
      · rename_i hrem
        simp at h1
        rcases h1 with h1 | h1
        · rw [h1]; exact hlog _
        · rw [h1]; exact hunl hrem _
      · simp at h1
  · intro xvas xs e he
    refine foldl_append_effects P _ ?_ xs [] (by intro e2 he2; simp at he2) e he
    intro eff x e2 he2
    split at he2
    · rcases List.mem_append.mp he2 with h1 | h1
      · rcases List.mem_append.mp h1 with h2 | h2
        · left; exact h2
        · right; simp at h2; rw [h2]; exact hlog _
      · right
        split at h1
        · rename_i hrem
          simp at h1
          rcases h1 with h1 | h1
          · rw [h1]; exact hlog _
          · rw [h1]; exact hunl hrem _
        · simp at h1
    · left; exact he2

/-- Claim C7: a `cleanVm` run with `remove`, `merge` and `fixMetadata`
all false (their defaults) performs no mutation: unlink, rename, metadata
`writeFile` and VHD merges are never invoked — every effect of the run is
a log — so the run only reads, lists and logs. -/
theorem cleanVm_report_mode_no_mutation (h : Cleaner.Handler) (vmDir : String)
    (flags : Cleaner.Flags) (r : Cleaner.CleanResult)
    (hfix : flags.fixMetadata = false) (hrem : flags.remove = false)
    (hmerge : flags.merge = false)
    (hr : Cleaner.cleanVm h vmDir flags = Except.ok r) :
    ∀ e ∈ r.effects, Cleaner.Effect.isMutation e = false := by
  unfold Cleaner.cleanVm at hr
  rw [hfix, hrem, hmerge] at hr
  simp only [Bind.bind, Except.bind] at hr
  split at hr
  · exact Except.noConfusion hr
  · rename_i core hcore
    have hcoreE := cleanVmCore_effects h vmDir false false core hcore
    split at hr
    · -- a non-empty merge plan: doMerge ran (with merge = false)
      split at hr
      · exact Except.noConfusion hr
      · rename_i effMerge hdm
        have hrec := Except.ok.inj hr
        intro e he
        rw [← hrec] at he
        rcases List.mem_append.mp he with h1 | h1
        · rcases List.mem_append.mp h1 with h2 | h2
          · rcases List.mem_append.mp h2 with h3 | h3
            · rcases hcoreE e h3 with h5 | h5 | h5
              · exact h5
              · exact absurd h5.1 (by simp)
              · rcases h5 with ⟨_, _, _, hfix5, _⟩
                exact absurd hfix5 (by simp)
            · exact doMerge_report h core.vhdsToJSons core.toMerge false effMerge hdm e h3
          · exact (cleanVm_tail_folds false
              (fun e2 => Cleaner.Effect.isMutation e2 = false)
              (fun msg => rfl) (by intro hcon; simp at hcon)).1 core.unusedXvas e h2
        · exact (cleanVm_tail_folds false
            (fun e2 => Cleaner.Effect.isMutation e2 = false)
            (fun msg => rfl) (by intro hcon; simp at hcon)).2 core.xvas core.xvaSums e h1
    · -- empty merge plan
      have hrec := Except.ok.inj hr
      intro e he
      rw [← hrec] at he
      rcases List.mem_append.mp he with h1 | h1
      · rcases List.mem_append.mp h1 with h2 | h2
        · rcases List.mem_append.mp h2 with h3 | h3
          · rcases hcoreE e h3 with h5 | h5 | h5
            · exact h5
            · exact absurd h5.1 (by simp)
            · rcases h5 with ⟨_, _, _, hfix5, _⟩
              exact absurd hfix5 (by simp)
          · simp at h3
        · exact (cleanVm_tail_folds false
            (fun e2 => Cleaner.Effect.isMutation e2 = false)
            (fun msg => rfl) (by intro hcon; simp at hcon)).1 core.unusedXvas e h2
      · exact (cleanVm_tail_folds false
          (fun e2 => Cleaner.Effect.isMutation e2 = false)
          (fun msg => rfl) (by intro hcon; simp at hcon)).2 core.xvas core.xvaSums e h1

/-- Witness for claim C7 on the concrete interrupted-merge directory with
all-false flags. -/
theorem cleanVm_report_mode_no_mutation_witness :
    Cleaner.cleanVm ExClean.h5 ("vm") ExClean.reportFlags = Except.ok ExClean.runReport ∧
    ∀ e ∈ ExClean.runReport.effects, Cleaner.Effect.isMutation e = false := by
  constructor
  · rfl
  · exact cleanVm_report_mode_no_mutation ExClean.h5 ("vm") ExClean.reportFlags
      ExClean.runReport rfl rfl rfl (by rfl)

/-- Claim C9: a backup JSON's recorded `size` is rewritten by `cleanVm`
only when it is undefined or strictly below the computed size of the
referenced payloads (and likewise in the post-merge update, where the
recomputation always fails and only an undefined recorded size is
rewritten); a recorded size at or above the computed total is never
reduced, so the stored size is monotonically non-decreasing across runs. -/
theorem cleanVm_size_rewrite_monotone (h : Cleaner.Handler) (vmDir : String)
    (flags : Cleaner.Flags) (r : Cleaner.CleanResult) (json : String)
    (m : Cleaner.Metadata)
    (hr : Cleaner.cleanVm h vmDir flags = Except.ok r)
    (hmem : Cleaner.Effect.writeFile json m ∈ r.effects) :
    (h.readJson json).size = none ∨
      ∃ ov nv, (h.readJson json).size = some ov ∧ m.size = some nv ∧ ov < nv := by
  have hnotWF : ∀ P : Prop, ∀ msg, Cleaner.Effect.writeFile json m = Cleaner.Effect.log msg →
      P := by
    intro P msg hcon
    exact Cleaner.Effect.noConfusion hcon
  have hfromCore : ∀ e2, e2 = Cleaner.Effect.writeFile json m →
      (Cleaner.Effect.isMutation e2 = false ∨
        (flags.remove = true ∧ ∃ q, e2 = Cleaner.Effect.unlink q) ∨
        (∃ json2 sv, e2 = Cleaner.Effect.writeFile json2
            { h.readJson json2 with size := some sv } ∧
          flags.fixMetadata = true ∧
          Cleaner.undefinedOrBelow (h.readJson json2).size sv = true)) →
      (h.readJson json).size = none ∨
        ∃ ov nv, (h.readJson json).size = some ov ∧ m.size = some nv ∧ ov < nv := by
    intro e2 he2 hchar
    subst he2
    rcases hchar with h5 | h5 | h5
    · exact absurd h5 (by simp [Cleaner.Effect.isMutation])
    · rcases h5.2 with ⟨q, hq⟩
      exact Cleaner.Effect.noConfusion hq
    · rcases h5 with ⟨json2, sv, heq, _, hbelow⟩
      have hj : json = json2 := (Cleaner.Effect.writeFile.inj heq).1
      have hm : m = { h.readJson json2 with size := some sv } :=
        (Cleaner.Effect.writeFile.inj heq).2
      subst hj
      unfold Cleaner.undefinedOrBelow at hbelow
      cases hsz : (h.readJson json).size with
      | none => left; rfl
      | some ov =>
        right
        refine ⟨ov, sv, rfl, by rw [hm], ?_⟩
        rw [hsz] at hbelow
        simpa using hbelow
  have hfromMerge : ∀ e2, e2 = Cleaner.Effect.writeFile json m →
      (Cleaner.Effect.isMutation e2 = false ∨
        (flags.merge = true ∧ ((∃ a b, e2 = Cleaner.Effect.mergeVhd a b) ∨
          (∃ a b, e2 = Cleaner.Effect.rename a b))) ∨
        (∃ path, e2 = Cleaner.Effect.writeFile path
            { h.readJson path with size := none } ∧
          (h.readJson path).size = none)) →
      (h.readJson json).size = none ∨
        ∃ ov nv, (h.readJson json).size = some ov ∧ m.size = some nv ∧ ov < nv := by
    intro e2 he2 hchar
    subst he2
    rcases hchar with h5 | h5 | h5
    · exact absurd h5 (by simp [Cleaner.Effect.isMutation])
    · rcases h5.2 with ⟨a, b, hq⟩ | ⟨a, b, hq⟩ <;> exact Cleaner.Effect.noConfusion hq
    · rcases h5 with ⟨path, heq, hnone⟩
      have hj : json = path := (Cleaner.Effect.writeFile.inj heq).1
      subst hj
      left; exact hnone
  unfold Cleaner.cleanVm at hr
  simp only [Bind.bind, Except.bind] at hr
  split at hr
  · exact Except.noConfusion hr
  · rename_i core hcore
    split at hr
    · -- non-empty plan: doMerge ran
      split at hr
      · exact Except.noConfusion hr
      · rename_i effMerge hdm
        have hrec := Except.ok.inj hr
        rw [← hrec] at hmem
        rcases List.mem_append.mp hmem with h1 | h1
        · rcases List.mem_append.mp h1 with h2 | h2
          · rcases List.mem_append.mp h2 with h3 | h3
            · exact hfromCore _ rfl
                (cleanVmCore_effects h vmDir flags.remove flags.fixMetadata core hcore _ h3)
            · exact hfromMerge _ rfl
                (doMerge_effects h core.vhdsToJSons core.toMerge flags.remove flags.merge
                  effMerge hdm _ h3)
          · refine (cleanVm_tail_folds flags.remove
              (fun e2 => e2 = Cleaner.Effect.writeFile json m →
                (h.readJson json).size = none ∨
                  ∃ ov nv, (h.readJson json).size = some ov ∧ m.size = some nv ∧ ov < nv)
              (fun msg hcon => hnotWF _ msg hcon.symm)
              (fun _ q hcon => Cleaner.Effect.noConfusion hcon.symm)).1
              core.unusedXvas _ h2 rfl
        · refine (cleanVm_tail_folds flags.remove
            (fun e2 => e2 = Cleaner.Effect.writeFile json m →
              (h.readJson json).size = none ∨
                ∃ ov nv, (h.readJson json).size = some ov ∧ m.size = some nv ∧ ov < nv)
            (fun msg hcon => hnotWF _ msg hcon.symm)
            (fun _ q hcon => Cleaner.Effect.noConfusion hcon.symm)).2
            core.xvas core.xvaSums _ h1 rfl
    · -- empty plan
      have hrec := Except.ok.inj hr
      rw [← hrec] at hmem
      rcases List.mem_append.mp hmem with h1 | h1
      · rcases List.mem_append.mp h1 with h2 | h2
        · rcases List.mem_append.mp h2 with h3 | h3
          · exact hfromCore _ rfl
              (cleanVmCore_effects h vmDir flags.remove flags.fixMetadata core hcore _ h3)
          · simp at h3
        · refine (cleanVm_tail_folds flags.remove
            (fun e2 => e2 = Cleaner.Effect.writeFile json m →
              (h.readJson json).size = none ∨
                ∃ ov nv, (h.readJson json).size = some ov ∧ m.size = some nv ∧ ov < nv)
            (fun msg hcon => hnotWF _ msg hcon.symm)
            (fun _ q hcon => Cleaner.Effect.noConfusion hcon.symm)).1
            core.unusedXvas _ h2 rfl
      · refine (cleanVm_tail_folds flags.remove
          (fun e2 => e2 = Cleaner.Effect.writeFile json m →
            (h.readJson json).size = none ∨
              ∃ ov nv, (h.readJson json).size = some ov ∧ m.size = some nv ∧ ov < nv)
          (fun msg hcon => hnotWF _ msg hcon.symm)
          (fun _ q hcon => Cleaner.Effect.noConfusion hcon.symm)).2
          core.xvas core.xvaSums _ h1 rfl

/-- Witness for claim C9 on the size-mismatch directory: the run rewrites
`vm/backup.json` from recorded size 1000000 to computed size 1200000. -/
theorem cleanVm_size_rewrite_monotone_witness :
    Cleaner.cleanVm ExClean.h9 ("vm") ExClean.fixFlags = Except.ok ExClean.runFix ∧
    Cleaner.Effect.writeFile ("vm/backup.json") ExClean.m9 ∈ ExClean.runFix.effects ∧
    ((ExClean.h9.readJson ("vm/backup.json")).size = none ∨
      ∃ ov nv, (ExClean.h9.readJson ("vm/backup.json")).size = some ov ∧
        ExClean.m9.size = some nv ∧ ov < nv) := by
  refine ⟨by rfl, by decide, ?_⟩
  exact cleanVm_size_rewrite_monotone ExClean.h9 ("vm") ExClean.fixFlags ExClean.runFix
    ("vm/backup.json") ExClean.m9 (by rfl) (by decide)

/-- Helper: `mergeVhdChain` succeeds on any chain of length at least two,
whatever the `merge` flag. -/
theorem mergeVhdChainM_ok_of (remove merge : Bool) (chain : Cleaner.Chain)
    (hl : 2 ≤ chain.length) :
    ∃ v, Cleaner.mergeVhdChainM remove merge chain = Except.ok v := by
  unfold Cleaner.mergeVhdChainM
  rw [if_pos hl]
  cases merge with
  | false => exact ⟨_, by rw [if_neg (by simp)]⟩
  | true => exact ⟨_, by rw [if_pos (by simp)]⟩

/-- Helper: `mergeVhdChain` fails its length assertion on any chain of
fewer than two elements, whatever the `merge` flag. -/
theorem mergeVhdChainM_err_of (remove merge : Bool) (chain : Cleaner.Chain)
    (hl : chain.length < 2) :
    Cleaner.mergeVhdChainM remove merge chain = Except.error Vhd.Err.assertion := by
  unfold Cleaner.mergeVhdChainM
  rw [if_neg (by omega)]

/-- Helper: a chain fold whose step succeeds exactly on chains of length at
least two succeeds when every chain qualifies. -/
theorem chainFoldlM_ok_of_all {α : Type} (f : α → Cleaner.Chain → Except Vhd.Err α)
    (hok : ∀ acc c, 2 ≤ c.length → ∃ v, f acc c = Except.ok v) :
    ∀ (tm : List Cleaner.Chain) (acc : α), (∀ c ∈ tm, 2 ≤ c.length) →
      ∃ v, List.foldlM f acc tm = Except.ok v := by
  intro tm
  induction tm with
  | nil => intro acc _; exact ⟨acc, rfl⟩
  | cons c tm ih =>
    intro acc hall
    have hc : 2 ≤ c.length := hall c (by simp)
    obtain ⟨a1, ha1⟩ := hok acc c hc
    obtain ⟨v, hv⟩ := ih a1 (fun d hd => hall d (by simp [hd]))
    refine ⟨v, ?_⟩
    rw [List.foldlM_cons, ha1]
    simpa using hv

/-- Helper: a chain fold whose step fails on every chain of length below
two only succeeds when every chain has length at least two. -/
theorem chainFoldlM_all_of_ok {α : Type} (f : α → Cleaner.Chain → Except Vhd.Err α)
    (herr : ∀ acc c, c.length < 2 → ∀ v, f acc c ≠ Except.ok v) :
    ∀ (tm : List Cleaner.Chain) (acc : α) (v : α),
      List.foldlM f acc tm = Except.ok v → ∀ c ∈ tm, 2 ≤ c.length := by
  intro tm
  induction tm with
  | nil => intro acc v _ c hc; simp at hc
  | cons c tm ih =>
    intro acc v hres d hd
    rw [List.foldlM_cons] at hres
    simp only [Bind.bind, Except.bind] at hres
    cases hstep : f acc c with
    | error err =>
      rw [hstep] at hres
      exact Except.noConfusion hres
    | ok mid =>
      rw [hstep] at hres
      rcases List.mem_cons.mp hd with hdc | hdm
      · subst hdc
        by_contra hlt
        exact herr acc d (by omega) mid hstep
      · exact ih mid v hres d hdm

/-- Helper: a chain fold whose step succeeds exactly on chains of length at
least two never errors when every chain qualifies. -/
theorem chainFoldlM_ne_error {α : Type} (f : α → Cleaner.Chain → Except Vhd.Err α)
    (hok : ∀ acc c, 2 ≤ c.length → ∃ v, f acc c = Except.ok v)
    (tm : List Cleaner.Chain) (acc : α) (hall : ∀ c ∈ tm, 2 ≤ c.length)
    (e : Vhd.Err) : List.foldlM f acc tm ≠ Except.error e := by
  intro hcon
  obtain ⟨v, hv⟩ := chainFoldlM_ok_of_all f hok tm acc hall
  rw [hv] at hcon
  exact Except.noConfusion hcon

/-- Helper: `doMerge` succeeds — whatever the `merge` flag — when every
chain of the plan has at least two elements. -/
theorem doMerge_ok_of (h : Cleaner.Handler) (js : List (String × String))
    (tm : List Cleaner.Chain) (remove merge : Bool)
    (hall : ∀ c ∈ tm, 2 ≤ c.length) :
    ∃ v, Cleaner.doMerge h js tm remove merge = Except.ok v := by
  cases hd : Cleaner.doMerge h js tm remove merge with
  | ok v => exact ⟨v, rfl⟩
  | error e =>
    exfalso
    unfold Cleaner.doMerge at hd
    simp only [Bind.bind, Except.bind] at hd
    split at hd
    · rename_i e2 hfold
      refine chainFoldlM_ne_error _ ?_ tm ([], []) hall e2 hfold
      intro acc c hc
      obtain ⟨w, hw⟩ := mergeVhdChainM_ok_of remove merge c hc
      simp only [Bind.bind, Except.bind, hw]
      obtain ⟨m, ef⟩ := w
      cases m <;> exact ⟨_, rfl⟩
    · exact Except.noConfusion hd

/-- Helper: when `doMerge` succeeds, every chain of the plan has at least
two elements. -/
theorem doMerge_all_of_ok (h : Cleaner.Handler) (js : List (String × String))
    (tm : List Cleaner.Chain) (remove merge : Bool) (v : List Cleaner.Effect)
    (hv : Cleaner.doMerge h js tm remove merge = Except.ok v) :
    ∀ c ∈ tm, 2 ≤ c.length := by
  unfold Cleaner.doMerge at hv
  simp only [Bind.bind, Except.bind] at hv
  split at hv
  · exact Except.noConfusion hv
  · rename_i pair hpair
    refine chainFoldlM_all_of_ok _ ?_ tm ([], []) pair hpair
    intro acc c hc w hcon
    rw [mergeVhdChainM_err_of remove merge c hc] at hcon
    simp only [Bind.bind, Except.bind] at hcon
    exact Except.noConfusion hcon

/-- Claim C10: every successful `cleanVm` run returns `merge = true` exactly
when the merge plan is non-empty, and this outcome is independent of the
`merge` flag: any run with the same `remove` and `fixMetadata` flags but an
arbitrary `merge` flag also succeeds and reports the same `merge` field and
the same plan — a report-only run already signals pending merges. -/
theorem cleanVm_merge_iff_plan_nonempty (h : Cleaner.Handler) (vmDir : String)
    (flags flags2 : Cleaner.Flags) (r : Cleaner.CleanResult)
    (hrem : flags2.remove = flags.remove) (hfix : flags2.fixMetadata = flags.fixMetadata)
    (hr : Cleaner.cleanVm h vmDir flags = Except.ok r) :
    (r.merge = true ↔ r.toMerge ≠ []) ∧
    ∃ r2, Cleaner.cleanVm h vmDir flags2 = Except.ok r2 ∧
      r2.merge = r.merge ∧ r2.toMerge = r.toMerge := by
  unfold Cleaner.cleanVm at hr ⊢
  simp only [Bind.bind, Except.bind] at hr ⊢
  rw [hrem, hfix]
  split at hr
  · exact Except.noConfusion hr
  · rename_i core hcore
    split at hr
    · -- non-empty plan
      rename_i hne
      split at hr
      · exact Except.noConfusion hr
      · rename_i effMerge hdm
        have hrec := Except.ok.inj hr
        subst hrec
        have hall := doMerge_all_of_ok h core.vhdsToJSons core.toMerge
          flags.remove flags.merge effMerge hdm
        obtain ⟨effMerge2, hdm2⟩ := doMerge_ok_of h core.vhdsToJSons core.toMerge
          flags.remove flags2.merge hall
        rw [if_pos hne, hdm2]
        have hiff : decide (core.toMerge.length ≠ 0) = true ↔ core.toMerge ≠ [] := by
          constructor
          · intro _ hnil
            exact hne (by rw [hnil]; rfl)
          · intro _
            exact decide_eq_true hne
        exact ⟨hiff, _, rfl, rfl, rfl⟩
    · -- empty plan
      rename_i hz
      have h0 : core.toMerge.length = 0 := by
        by_contra hcon
        exact hz hcon
      have hrec := Except.ok.inj hr
      subst hrec
      rw [if_neg hz]
      have hiff : decide (core.toMerge.length ≠ 0) = true ↔ core.toMerge ≠ [] := by
        constructor
        · intro hm
          exact absurd h0 (of_decide_eq_true hm)
        · intro hnil
          exact absurd (List.eq_nil_of_length_eq_zero h0) hnil
      exact ⟨hiff, _, rfl, rfl, rfl⟩

/-- Witness for claim C10: the report-mode run on the interrupted-merge
directory has a non-empty plan and `merge = true`, and the run with the
`merge` flag set reports the same `merge` field and the same plan. -/
theorem cleanVm_merge_iff_plan_nonempty_witness :
    Cleaner.cleanVm ExClean.h5 ("vm") ExClean.reportFlags = Except.ok ExClean.runReport ∧
    ((ExClean.runReport.merge = true ↔ ExClean.runReport.toMerge ≠ []) ∧
      ∃ r2, Cleaner.cleanVm ExClean.h5 ("vm") ExClean.mergeFlags = Except.ok r2 ∧
        r2.merge = ExClean.runReport.merge ∧ r2.toMerge = ExClean.runReport.toMerge) := by
  constructor
  · rfl
  · exact cleanVm_merge_iff_plan_nonempty ExClean.h5 ("vm") ExClean.reportFlags
      ExClean.mergeFlags ExClean.runReport (by rfl) (by rfl) (by rfl)

/-- Helper: association-list lookup steps through a cons cell. -/
theorem alookup_cons {α : Type} (a : String × α) (l : List (String × α)) (k : String) :
    Cleaner.alookup (a :: l) k = if a.1 = k then some a.2 else Cleaner.alookup l k := by
  unfold Cleaner.alookup
  by_cases ha : a.1 = k
  · rw [if_pos ha, List.find?_cons_of_pos _ (by simp [ha])]
  · rw [if_neg ha, List.find?_cons_of_neg _ (by simp [ha])]

/-- Helper: a key-targeted map rewrite yields the new value at that key
when the key was present. -/
theorem alookup_map_set {α : Type} (k : String) (v : α) :
    ∀ l : List (String × α), (Cleaner.alookup l k).isSome = true →
      Cleaner.alookup (l.map (fun p => if p.1 = k then (k, v) else p)) k = some v := by
  intro l
  induction l with
  | nil => intro hc; exact absurd hc (by simp [Cleaner.alookup])
  | cons a l ih =>
    intro hc
    rw [List.map_cons]
    by_cases ha : a.1 = k
    · rw [if_pos ha, alookup_cons, if_pos rfl]
    · rw [if_neg ha, alookup_cons, if_neg ha]
      rw [alookup_cons, if_neg ha] at hc
      exact ih hc

/-- Helper: appending a fresh binding yields its value at that key when
the key was absent. -/
theorem alookup_append_single {α : Type} (k : String) (v : α) :
    ∀ l : List (String × α), Cleaner.alookup l k = none →
      Cleaner.alookup (l ++ [(k, v)]) k = some v := by
  intro l
  induction l with
  | nil => intro _; rw [List.nil_append, alookup_cons, if_pos rfl]
  | cons a l ih =>
    intro hn
    rw [alookup_cons] at hn
    rw [List.cons_append, alookup_cons]
    by_cases ha : a.1 = k
    · rw [if_pos ha] at hn; exact Option.noConfusion hn
    · rw [if_neg ha] at hn
      rw [if_neg ha]
      exact ih hn

/-- Helper: assignment then lookup at the same key yields the assigned
value. -/
theorem alookup_aset_self {α : Type} (l : List (String × α)) (k : String) (v : α) :
    Cleaner.alookup (Cleaner.aset l k v) k = some v := by
  unfold Cleaner.aset
  by_cases hc : (Cleaner.alookup l k).isSome
  · rw [if_pos hc]
    exact alookup_map_set k v l hc
  · rw [if_neg hc]
    exact alookup_append_single k v l (by
      cases hl : Cleaner.alookup l k with
      | none => rfl
      | some w => rw [hl] at hc; exact absurd rfl hc)

/-- Helper: a key-targeted map rewrite leaves lookups at other keys
unchanged. -/
theorem alookup_map_set_ne {α : Type} (k k2 : String) (v : α) (hne : k ≠ k2) :
    ∀ l : List (String × α),
      Cleaner.alookup (l.map (fun p => if p.1 = k2 then (k2, v) else p)) k =
        Cleaner.alookup l k := by
  intro l
  induction l with
  | nil => rfl
  | cons a l ih =>
    rw [List.map_cons]
    by_cases ha : a.1 = k2
    · rw [if_pos ha, alookup_cons, alookup_cons, ih]
      rw [if_neg (fun hcon => hne (hcon.symm)), if_neg (by rw [ha]; exact fun hcon => hne hcon.symm)]
    · rw [if_neg ha, alookup_cons, alookup_cons, ih]

/-- Helper: appending a fresh binding leaves lookups at other keys
unchanged. -/
theorem alookup_append_single_ne {α : Type} (k k2 : String) (v : α) (hne : k ≠ k2) :
    ∀ l : List (String × α),
      Cleaner.alookup (l ++ [(k2, v)]) k = Cleaner.alookup l k := by
  intro l
  induction l with
  | nil =>
    rw [List.nil_append, alookup_cons, if_neg (fun hcon => hne hcon.symm)]
  | cons a l ih =>
    rw [List.cons_append, alookup_cons, alookup_cons, ih]

/-- Helper: assignment at one key leaves lookups at other keys
unchanged. -/
theorem alookup_aset_ne {α : Type} (l : List (String × α)) (k k2 : String) (v : α)
    (hne : k ≠ k2) :
    Cleaner.alookup (Cleaner.aset l k2 v) k = Cleaner.alookup l k := by
  unfold Cleaner.aset
  by_cases hc : (Cleaner.alookup l k2).isSome
  · rw [if_pos hc]
    exact alookup_map_set_ne k k2 v hne l
  · rw [if_neg hc]
    exact alookup_append_single_ne k k2 v hne l

/-- Helper: a fold of assignments over keys not containing `p` leaves the
lookup at `p` unchanged. -/
theorem foldl_aset_lookup_notmem {α : Type} (g : String → α) :
    ∀ (ps : List String) (cs : List (String × α)) (p : String), p ∉ ps →
      Cleaner.alookup (ps.foldl (fun cs2 q => Cleaner.aset cs2 q (g q)) cs) p =
        Cleaner.alookup cs p := by
  intro ps
  induction ps with
  | nil => intro cs p _; rfl
  | cons q ps ih =>
    intro cs p hnp
    rw [List.foldl_cons]
    have hpq : p ≠ q := fun hcon => hnp (by rw [hcon]; simp)
    rw [ih _ p (fun hcon => hnp (by simp [hcon]))]
    exact alookup_aset_ne cs p q (g q) hpq

/-- Helper: after folding assignments `q ↦ g q` over a key list, every key
of the list looks up to its assigned value. -/
theorem foldl_aset_lookup {α : Type} (g : String → α) :
    ∀ (ps : List String) (cs : List (String × α)) (p : String), p ∈ ps →
      Cleaner.alookup (ps.foldl (fun cs2 q => Cleaner.aset cs2 q (g q)) cs) p =
        some (g p) := by
  intro ps
  induction ps with
  | nil => intro cs p hp; simp at hp
  | cons q ps ih =>
    intro cs p hp
    rw [List.foldl_cons]
    by_cases hmem : p ∈ ps
    · exact ih _ p hmem
    · have hpq : p = q := by
        rcases List.mem_cons.mp hp with h1 | h1
        · exact h1
        · exact absurd h1 hmem
      rw [foldl_aset_lookup_notmem g ps _ p hmem, hpq]
      exact alookup_aset_self cs q (g q)

/-- Helper: a successful lookup's value is among the association list's
values. -/
theorem alookup_mem_values {α : Type} (l : List (String × α)) (p : String) (v : α)
    (hl : Cleaner.alookup l p = some v) : v ∈ l.map (fun q => q.2) := by
  unfold Cleaner.alookup at hl
  cases hf : l.find? (fun q => q.1 = p) with
  | none => rw [hf] at hl; exact Option.noConfusion hl
  | some q =>
    rw [hf] at hl
    have hq : q.2 = v := Option.some.inj hl
    rw [← hq]
    exact List.mem_map_of_mem _ (List.mem_of_find?_eq_some hf)

/-- Helper: the `listVhds` fold only ever appends to the interrupted
list. -/
theorem listVhds_fold_mono (x : String) :
    ∀ (files : List String) (acc : List String × List String), x ∈ acc.2 →
      x ∈ (files.foldl
        (fun acc2 f =>
          match Cleaner.sidecarExec f with
          | none => (acc2.1 ++ [f], acc2.2)
          | some (dir, file) =>
            (acc2.1, acc2.2 ++ [(dir.getD ("undefined")) ++ "/" ++ file]))
        acc).2 := by
  intro files
  induction files with
  | nil => intro acc hx; exact hx
  | cons g files ih =>
    intro acc hx
    rw [List.foldl_cons]
    refine ih _ ?_
    cases hs : Cleaner.sidecarExec g with
    | none => simp only [hs]; exact hx
    | some pr =>
      obtain ⟨dir, file⟩ := pr
      simp only [hs]
      exact List.mem_append_left _ hx

/-- Helper: every sidecar among the scanned files contributes its
recovered `dir/file` path to the interrupted list built by the `listVhds`
fold. -/
theorem listVhds_fold_mem (f : String) (dir : Option String) (file : String)
    (hs : Cleaner.sidecarExec f = some (dir, file)) :
    ∀ (files : List String) (acc : List String × List String), f ∈ files →
      ((dir.getD ("undefined")) ++ "/" ++ file) ∈ (files.foldl
        (fun acc2 f2 =>
          match Cleaner.sidecarExec f2 with
          | none => (acc2.1 ++ [f2], acc2.2)
          | some (dir2, file2) =>
            (acc2.1, acc2.2 ++ [(dir2.getD ("undefined")) ++ "/" ++ file2]))
        acc).2 := by
  intro files
  induction files with
  | nil => intro acc hf; simp at hf
  | cons g files ih =>
    intro acc hf
    rw [List.foldl_cons]
    by_cases hfg : f = g
    · refine listVhds_fold_mono _ files _ ?_
      rw [← hfg, hs]
      exact List.mem_append_right _ (by simp)
    · rcases List.mem_cons.mp hf with h1 | h1
      · exact absurd h1 hfg
      · exact ih _ h1

/-- Helper: the successful `cleanVm` result carries the core phases'
interrupted list, child map and merge plan unchanged. -/
theorem cleanVm_fields (h : Cleaner.Handler) (vmDir : String) (flags : Cleaner.Flags)
    (r : Cleaner.CleanResult) (hr : Cleaner.cleanVm h vmDir flags = Except.ok r) :
    ∃ core, Cleaner.cleanVmCore h vmDir flags.remove flags.fixMetadata = Except.ok core ∧
      r.interrupted = core.interrupted ∧ r.vhdChildren = core.vhdChildren ∧
      r.toMerge = core.toMerge := by
  unfold Cleaner.cleanVm at hr
  simp only [Bind.bind, Except.bind] at hr
  split at hr
  · exact Except.noConfusion hr
  · rename_i core hcore
    split at hr
    · split at hr
      · exact Except.noConfusion hr
      · rename_i effMerge hdm
        refine ⟨core, hcore, ?_, ?_, ?_⟩
        · exact (congrArg (fun t => t.interrupted) (Except.ok.inj hr)).symm
        · exact (congrArg (fun t => t.vhdChildren) (Except.ok.inj hr)).symm
        · exact (congrArg (fun t => t.toMerge) (Except.ok.inj hr)).symm
    · refine ⟨core, hcore, ?_, ?_, ?_⟩
      · exact (congrArg (fun t => t.interrupted) (Except.ok.inj hr)).symm
      · exact (congrArg (fun t => t.vhdChildren) (Except.ok.inj hr)).symm
      · exact (congrArg (fun t => t.toMerge) (Except.ok.inj hr)).symm

/-- Helper: the plan built by the merge-plan phase contains, for every
interrupted path `p`, the chain `[vhdChildren[p], p]`. -/
theorem phase4Plan_interrupted_mem (h : Cleaner.Handler) (interrupted unusedVhds : List String)
    (vhdChildren : List (String × String)) (remove : Bool) (toMerge : List Cleaner.Chain)
    (eff : List Cleaner.Effect)
    (hok : Cleaner.phase4Plan h interrupted unusedVhds vhdChildren remove =
      Except.ok (toMerge, eff)) :
    ∀ p ∈ interrupted, [Cleaner.alookup vhdChildren p, some p] ∈ toMerge := by
  unfold Cleaner.phase4Plan at hok
  simp only [Bind.bind, Except.bind] at hok
  split at hok
  · exact Except.noConfusion hok
  · rename_i pair hpair
    intro p hp
    have htm : toMerge = ((interrupted.foldl
        (fun cs parent => Cleaner.aset cs parent
          (some [Cleaner.alookup vhdChildren parent, some parent]))
        pair.1.chains).map (fun q => q.2)).reduceOption :=
      (congrArg (fun t => t.1) (Except.ok.inj hok)).symm
    rw [htm]
    refine List.reduceOption_mem_iff.mpr ?_
    refine alookup_mem_values _ p _ ?_
    exact foldl_aset_lookup
      (fun parent => some [Cleaner.alookup vhdChildren parent, some parent])
      interrupted pair.1.chains p hp

/-- Helper: the core phases report the scan's interrupted list, and plan,
for every interrupted path `p`, the chain `[vhdChildren[p], p]`. -/
theorem cleanVmCore_interrupted_plan (h : Cleaner.Handler) (vmDir : String)
    (remove fixMetadata : Bool) (core : Cleaner.CoreResult)
    (hcore : Cleaner.cleanVmCore h vmDir remove fixMetadata = Except.ok core) :
    core.interrupted = (Cleaner.listVhds h vmDir).2 ∧
    ∀ p ∈ core.interrupted,
      [Cleaner.alookup core.vhdChildren p, some p] ∈ core.toMerge := by
  unfold Cleaner.cleanVmCore at hcore
  simp only [Bind.bind, Except.bind] at hcore
  split at hcore
  · exact Except.noConfusion hcore
  · rename_i pair hpair
    have hrec := Except.ok.inj hcore
    rw [← hrec]
    constructor
    · rfl
    · intro p hp
      exact phase4Plan_interrupted_mem h _ _ _ remove pair.1 pair.2 hpair p hp

/-- Counterexample for claim C5: in the interrupted-merge scenario — the
sidecar `.c.vhd.merge.json` names, as `mergeVhd` prescribes, the child
`c.vhd` of the interrupted merge of `c.vhd` into `p.vhd` — `cleanVm`
records the child path in the interrupted list, but appends the chain
`[vhdChildren[child], child]` (here `[undefined, child]`), not the claimed
pair `[child, parent]`. -/
theorem cleanVm_interrupted_pair_cex :
    Cleaner.cleanVm ExClean.h5 ("vm") ExClean.reportFlags = Except.ok ExClean.runReport ∧
    ExClean.runReport.interrupted = ["vm/vdis/j/v/c.vhd"] ∧
    ExClean.runReport.toMerge = [[none, some ("vm/vdis/j/v/c.vhd")]] ∧
    [some ("vm/vdis/j/v/c.vhd"), some ("vm/vdis/j/v/p.vhd")] ∉
      ExClean.runReport.toMerge := by
  refine ⟨rfl, rfl, rfl, by decide⟩

/-- Claim C5 (amended): for every interrupted-merge sidecar found by the
scan, the interrupted list records the path `dir/file` recovered from the
sidecar name (under the specified sidecar naming this is the child of the
interrupted merge), and for every recovered path `p` the merge plan
contains the chain `[vhdChildren[p], p]` — whose first element is the
entry for `p` in the scan's child map (`undefined` when `p` has no
registered child), not the child of the interrupted merge — even if the
involved VHDs are referenced by surviving backup metadata. -/
theorem cleanVm_interrupted_plan (h : Cleaner.Handler) (vmDir : String)
    (flags : Cleaner.Flags) (r : Cleaner.CleanResult)
    (hr : Cleaner.cleanVm h vmDir flags = Except.ok r) :
    r.interrupted = (Cleaner.listVhds h vmDir).2 ∧
    (∀ f ∈ Cleaner.listVdiFiles h vmDir, ∀ dir file,
      Cleaner.sidecarExec f = some (dir, file) →
      ((dir.getD ("undefined")) ++ "/" ++ file) ∈ r.interrupted) ∧
    ∀ p ∈ r.interrupted,
      [Cleaner.alookup r.vhdChildren p, some p] ∈ r.toMerge := by
  obtain ⟨core, hcore, hint, hvc, htm⟩ := cleanVm_fields h vmDir flags r hr
  obtain ⟨hcint, hplan⟩ :=
    cleanVmCore_interrupted_plan h vmDir flags.remove flags.fixMetadata core hcore
  refine ⟨by rw [hint, hcint], ?_, ?_⟩
  · intro f hf dir file hs
    rw [hint, hcint]
    show ((dir.getD ("undefined")) ++ "/" ++ file) ∈ (Cleaner.listVhds h vmDir).2
    exact listVhds_fold_mem f dir file hs (Cleaner.listVdiFiles h vmDir) ([], []) hf
  · intro p hp
    rw [hvc, htm]
    rw [hint] at hp
    exact hplan p hp

/-- Witness for the amended claim C5 in the grandchild scenario: the
sidecar-recovered child `c.vhd` has the registered child `g.vhd`, and the
plan holds `[g.vhd, c.vhd]`. -/
theorem cleanVm_interrupted_plan_witness :
    Cleaner.cleanVm ExClean.h5g ("vm") ExClean.reportFlags = Except.ok ExClean.runGrand ∧
    (ExClean.runGrand.interrupted = (Cleaner.listVhds ExClean.h5g ("vm")).2 ∧
      (∀ f ∈ Cleaner.listVdiFiles ExClean.h5g ("vm"), ∀ dir file,
        Cleaner.sidecarExec f = some (dir, file) →
        ((dir.getD ("undefined")) ++ "/" ++ file) ∈ ExClean.runGrand.interrupted) ∧
      ∀ p ∈ ExClean.runGrand.interrupted,
        [Cleaner.alookup ExClean.runGrand.vhdChildren p, some p] ∈
          ExClean.runGrand.toMerge) := by
  constructor
  · rfl
  · exact cleanVm_interrupted_plan ExClean.h5g ("vm") ExClean.reportFlags
      ExClean.runGrand (by rfl)

/-- Helper: `getD` through `take`, inside the taken range. -/
theorem getD_take_lt (l : List Nat) (m k x : Nat) (h : k < m) :
    (l.take m).getD k x = l.getD k x := by
  rw [List.getD_eq_getElem?_getD, List.getD_eq_getElem?_getD, List.getElem?_take, if_pos h]

/-- Helper: `getD` through `drop`. -/
theorem getD_drop_add (l : List Nat) (n k x : Nat) :
    (l.drop n).getD k x = l.getD (n + k) x := by
  rw [List.getD_eq_getElem?_getD, List.getD_eq_getElem?_getD, List.getElem?_drop]

/-- Helper: `getD` through a slice, inside the slice. -/
theorem listSlice_getD (l : List Nat) (a b k : Nat) (h : k < b - a) :
    (Vhd.listSlice l a b).getD k 0 = l.getD (a + k) 0 := by
  unfold Vhd.listSlice
  rw [getD_take_lt _ _ _ _ h, getD_drop_add]

/-- Helper: length of a slice that ends inside the list. -/
theorem listSlice_length_of_le (l : List Nat) (a b : Nat) (h : b ≤ l.length) :
    (Vhd.listSlice l a b).length = b - a := by
  unfold Vhd.listSlice
  rw [List.length_take, List.length_drop]
  omega

/-- Helper: `readBytes` returns the requested number of bytes. -/
theorem readBytes_length (d : Vhd.DiskFile) (off n : Nat) :
    (Vhd.readBytes d off n).length = n := by
  unfold Vhd.readBytes
  rw [List.length_map, List.length_range]

/-- Helper: the bytes of `readBytes` are the file's bytes. -/
theorem readBytes_getD (d : Vhd.DiskFile) (off n k : Nat) (h : k < n) :
    (Vhd.readBytes d off n).getD k 0 = d.data (off + k) := by
  unfold Vhd.readBytes
  rw [List.getD_eq_getElem?_getD, List.getElem?_map]
  rw [List.getElem?_range h]
  rfl

/-- Helper: setting a bitmap bit preserves the buffer length. -/
theorem bitmapSet_length (buf : List Nat) (i : Nat) :
    (Vhd.bitmapSet buf i).length = buf.length := by
  unfold Vhd.bitmapSet
  rw [List.length_set]

/-- Helper: folding bit sets over any index list preserves the buffer
length. -/
theorem foldl_bitmapSet_length :
    ∀ (js : List Nat) (pb : List Nat), (js.foldl Vhd.bitmapSet pb).length = pb.length := by
  intro js
  induction js with
  | nil => intro pb; rfl
  | cons j js ih =>
    intro pb
    rw [List.foldl_cons, ih, bitmapSet_length]

/-- Helper: `orBits` with no set bit below the bound is the identity. -/
theorem orBits_clear (old bm : List Nat) (i : Nat)
    (h : ∀ j, j < i → Vhd.bitmapTest bm j = false) :
    Vhd.orBits old bm i = old := by
  unfold Vhd.orBits
  have hf : (List.range i).filter (fun j => Vhd.bitmapTest bm j) = [] := by
    rw [List.filter_eq_nil_iff]
    intro j hj
    rw [h j (List.mem_range.mp hj)]
    exact Bool.false_ne_true
  rw [hf]
  rfl

/-- Helper: `orBits` unfolds one step at the top bound. -/
theorem orBits_succ (old bm : List Nat) (k : Nat) :
    Vhd.orBits old bm (k + 1) =
      if Vhd.bitmapTest bm k then Vhd.bitmapSet (Vhd.orBits old bm k) k
      else Vhd.orBits old bm k := by
  unfold Vhd.orBits
  rw [List.range_succ, List.filter_append, List.foldl_append]
  by_cases hk : Vhd.bitmapTest bm k
  · rw [if_pos hk]
    simp [hk]
  · rw [if_neg hk]
    simp [hk]

/-- Helper: `orBits` preserves the buffer length. -/
theorem orBits_length (old bm : List Nat) (k : Nat) :
    (Vhd.orBits old bm k).length = old.length := by
  unfold Vhd.orBits
  exact foldl_bitmapSet_length _ old

/-- Helper: folding bit sets over a run of set bits extends `orBits` from
the run's start to its end. -/
theorem orBits_run (old bm : List Nat) :
    ∀ (n i : Nat), (∀ j, i ≤ j → j < i + n → Vhd.bitmapTest bm j = true) →
      (List.range' i n).foldl Vhd.bitmapSet (Vhd.orBits old bm i) =
        Vhd.orBits old bm (i + n) := by
  intro n
  induction n with
  | zero => intro i _; rfl
  | succ n ih =>
    intro i hset
    rw [List.range'_succ, List.foldl_cons]
    have hstep : Vhd.bitmapSet (Vhd.orBits old bm i) i = Vhd.orBits old bm (i + 1) := by
      rw [orBits_succ, if_pos (hset i (Nat.le_refl i) (by omega))]
    rw [hstep, ih (i + 1) (fun j hj1 hj2 => hset j (by omega) (by omega))]
    congr 1
    omega

/-- Helper: the sector-run scan never runs past the block. -/
theorem runLenAux_le (bm : List Nat) (spb : Nat) :
    ∀ (c e : Nat), e ≤ spb → e + Vhd.runLenAux bm spb c e ≤ spb := by
  intro c
  induction c with
  | zero => intro e he; simp only [Vhd.runLenAux]; omega
  | succ n ih =>
    intro e he
    simp only [Vhd.runLenAux]
    by_cases hc : e < spb ∧ Vhd.bitmapTest bm e
    · rw [if_pos hc]
      have := ih (e + 1) (by omega)
      omega
    · rw [if_neg hc]
      omega

/-- Helper: every sector inside a scanned run has its bit set. -/
theorem runLenAux_set (bm : List Nat) (spb : Nat) :
    ∀ (c e j : Nat), e ≤ j → j < e + Vhd.runLenAux bm spb c e →
      Vhd.bitmapTest bm j = true := by
  intro c
  induction c with
  | zero => intro e j h1 h2; simp only [Vhd.runLenAux] at h2; omega
  | succ n ih =>
    intro e j h1 h2
    simp only [Vhd.runLenAux] at h2
    by_cases hc : e < spb ∧ Vhd.bitmapTest bm e
    · rw [if_pos hc] at h2
      by_cases hje : j = e
      · rw [hje]; exact hc.2
      · exact ih (e + 1) j (by omega) (by omega)
    · rw [if_neg hc] at h2
      omega

/-- Helper: a scanned run ends at the block boundary or at a clear bit. -/
theorem runLenAux_end (bm : List Nat) (spb : Nat) :
    ∀ (c e : Nat), e ≤ spb → spb - e ≤ c →
      (e + Vhd.runLenAux bm spb c e = spb ∨
        Vhd.bitmapTest bm (e + Vhd.runLenAux bm spb c e) = false) := by
  intro c
  induction c with
  | zero =>
    intro e he hb
    simp only [Vhd.runLenAux]
    omega
  | succ n ih =>
    intro e he hb
    simp only [Vhd.runLenAux]
    by_cases hc : e < spb ∧ Vhd.bitmapTest bm e
    · rw [if_pos hc]
      have := ih (e + 1) (by omega) (by omega)
      rcases this with h1 | h1
      · left; omega
      · right
        have harith : e + (Vhd.runLenAux bm spb n (e + 1) + 1) =
            e + 1 + Vhd.runLenAux bm spb n (e + 1) := by omega
        rw [harith]
        exact h1
    · rw [if_neg hc]
      by_cases he2 : e < spb
      · right
        cases hbit : Vhd.bitmapTest bm e with
        | false => simpa using hbit
        | true => exact absurd ⟨he2, hbit⟩ hc
      · left; omega

/-- Helper: on an all-set tail the scan runs to the block boundary. -/
theorem runLenAux_full (bm : List Nat) (spb : Nat) :
    ∀ (c e : Nat), e ≤ spb → spb - e ≤ c →
      (∀ j, e ≤ j → j < spb → Vhd.bitmapTest bm j = true) →
      Vhd.runLenAux bm spb c e = spb - e := by
  intro c
  induction c with
  | zero =>
    intro e he hb _
    simp only [Vhd.runLenAux]
    omega
  | succ n ih =>
    intro e he hb hall
    simp only [Vhd.runLenAux]
    by_cases he2 : e < spb
    · rw [if_pos ⟨he2, hall e (Nat.le_refl e) he2⟩]
      rw [ih (e + 1) (by omega) (by omega) (fun j h1 h2 => hall j (by omega) h2)]
      omega
    · rw [if_neg (fun hcon => he2 hcon.1)]
      omega

/-- Helper: one clear sector does not change the expected coalesced
content. -/
theorem coalesceMid_clear_succ (d : Vhd.DiskFile) (base bmS : Nat) (bm dt : List Nat)
    (k a : Nat) (hk : Vhd.bitmapTest bm k = false) :
    Vhd.coalesceMid d base bmS bm dt (k + 1) a = Vhd.coalesceMid d base bmS bm dt k a := by
  unfold Vhd.coalesceMid
  by_cases h1 : base ≤ a ∧ a < base + bmS
  · rw [if_pos h1, if_pos h1, orBits_succ, if_neg (by rw [hk]; exact Bool.false_ne_true)]
  · rw [if_neg h1, if_neg h1]
    by_cases h2 : base + bmS ≤ a ∧ (a - (base + bmS)) / 512 < k ∧
        Vhd.bitmapTest bm ((a - (base + bmS)) / 512) = true
    · rw [if_pos ⟨h2.1, by omega, h2.2.2⟩, if_pos h2]
    · have h3 : ¬(base + bmS ≤ a ∧ (a - (base + bmS)) / 512 < k + 1 ∧
          Vhd.bitmapTest bm ((a - (base + bmS)) / 512) = true) := by
        intro hcon
        rcases hcon with ⟨hc1, hc2, hc3⟩
        refine h2 ⟨hc1, ?_, hc3⟩
        by_cases hqk : (a - (base + bmS)) / 512 = k
        · rw [hqk, hk] at hc3
          exact absurd hc3 Bool.false_ne_true
        · omega
      rw [if_neg h3, if_neg h2]

/-- Helper: the bitmap-only read of an allocated block returns the bitmap
bytes at the block address. -/
theorem readBlock_bitmap_alloc (s : Vhd.VhdState) (d : Vhd.DiskFile) (blockId addr : Nat)
    (haddr : Vhd.getBatEntry s.blockTable blockId = addr) (hne : addr ≠ Vhd.BLOCK_UNUSED)
    (hsize : Vhd.sectorsToBytes addr + Vhd.bitmapSize s.header ≤ d.size) :
    Vhd.readBlock s d blockId true = Except.ok
      { id := blockId
        bitmap := Vhd.readBytes d (Vhd.sectorsToBytes addr) (Vhd.bitmapSize s.header)
        data := none, buffer := none } := by
  unfold Vhd.readBlock
  simp only [haddr]
  rw [if_neg hne]
  unfold Vhd.fileRead
  rw [if_pos (Or.inl (by simpa using hsize))]
  rfl

/-- Helper: the exit step of the run loop. -/
theorem coalesceRuns_exit (s : Vhd.VhdState) (d : Vhd.DiskFile) (blk : Vhd.BlockData)
    (blockId spb : Nat) (pb : Option (List Nat)) (counter i : Nat)
    (hspb : spb ≤ i) (hc : 1 ≤ counter) :
    Vhd.coalesceRuns s d blk blockId spb pb counter i = Except.ok (s, d) := by
  cases counter with
  | zero => omega
  | succ n =>
    unfold Vhd.coalesceRuns
    rw [if_neg (by omega)]

/-- Helper: writing a sector run into an allocated block with a supplied
parent bitmap leaves the state unchanged and performs exactly the bitmap
write and the run's data write. -/
theorem writeBlockSectors_alloc (s : Vhd.VhdState) (d : Vhd.DiskFile) (bid : Nat)
    (dat : List Nat) (i e addr : Nat) (pb : List Nat)
    (haddr : Vhd.getBatEntry s.blockTable bid = addr) (hne : addr ≠ Vhd.BLOCK_UNUSED)
    (hlen : ((List.range' i (e - i)).foldl Vhd.bitmapSet pb).length =
      Vhd.bitmapSize s.header) :
    Vhd.writeBlockSectors s d bid dat i e (some pb) = Except.ok
      (s,
        Vhd.fileWrite
          (Vhd.fileWrite d (Vhd.sectorsToBytes addr)
            ((List.range' i (e - i)).foldl Vhd.bitmapSet pb))
          (Vhd.sectorsToBytes (addr + Vhd.sectorsOfBitmap s.header + i))
          (Vhd.listSlice dat (Vhd.sectorsToBytes i) (Vhd.sectorsToBytes e)),
        (List.range' i (e - i)).foldl Vhd.bitmapSet pb, false) := by
  unfold Vhd.writeBlockSectors
  simp only [Bind.bind, Except.bind, haddr]
  rw [if_neg hne]
  unfold Vhd.writeBlockBitmap
  rw [if_pos hlen]

/-- Helper: writing one run's bitmap and data over a disk that carries the
coalesced content up to sector `i` yields the coalesced content up to
sector `E`. -/
theorem coalesceMid_write_step (d0 di : Vhd.DiskFile) (base bmS : Nat)
    (bm dt pb2 : List Nat) (i E spbC : Nat) (offB : Nat)
    (hoffB : offB = base + bmS + 512 * i)
    (hInv : ∀ a, di.data a = Vhd.coalesceMid d0 base bmS bm dt i a)
    (hpb2 : pb2 = Vhd.orBits (Vhd.readBytes d0 base bmS) bm E)
    (hpb2len : pb2.length = bmS)
    (hset : ∀ j, i ≤ j → j < E → Vhd.bitmapTest bm j = true)
    (hiE : i ≤ E) (hEs : E ≤ spbC)
    (hdtlen : dt.length = 512 * spbC)
    (slice : List Nat)
    (hslice_len : slice.length = 512 * E - 512 * i)
    (hslice_getD : ∀ k, k < 512 * E - 512 * i → slice.getD k 0 = dt.getD (512 * i + k) 0) :
    ∀ a, (Vhd.fileWrite (Vhd.fileWrite di base pb2) offB slice).data a =
      Vhd.coalesceMid d0 base bmS bm dt E a := by
  intro a
  simp only [Vhd.fileWrite]
  rw [hslice_len]
  unfold Vhd.coalesceMid
  by_cases hA : offB ≤ a ∧ a < offB + (512 * E - 512 * i)
  · rw [if_pos hA]
    rw [hslice_getD (a - offB) (by omega)]
    rw [if_neg (by omega)]
    have hq1 : i ≤ (a - (base + bmS)) / 512 := by omega
    have hq2 : (a - (base + bmS)) / 512 < E := by omega
    rw [if_pos ⟨by omega, hq2, hset _ hq1 hq2⟩]
    have hidx : 512 * i + (a - offB) = a - (base + bmS) := by omega
    rw [hidx]
  · rw [if_neg hA]
    by_cases hB : base ≤ a ∧ a < base + pb2.length
    · rw [if_pos hB, hpb2]
      rw [if_pos (by rw [hpb2len] at hB; exact hB)]
    · rw [if_neg hB]
      rw [hInv a]
      have hnb : ¬(base ≤ a ∧ a < base + bmS) := by rw [hpb2len] at hB; exact hB
      unfold Vhd.coalesceMid
      rw [if_neg hnb, if_neg hnb]
      by_cases hq : base + bmS ≤ a ∧ (a - (base + bmS)) / 512 < i ∧
          Vhd.bitmapTest bm ((a - (base + bmS)) / 512) = true
      · rw [if_pos hq, if_pos ⟨hq.1, by omega, hq.2.2⟩]
      · rw [if_neg hq, if_neg ?hq2]
        case hq2 =>
          intro hcon
          rcases hcon with ⟨h1, h2, h3⟩
          by_cases hqi : (a - (base + bmS)) / 512 < i
          · exact hq ⟨h1, hqi, h3⟩
          · exact hA ⟨by omega, by omega⟩

/-- Helper: folding a run of set bits onto a buffer already equal to
`orBits` at the run's start reaches `orBits` at the run's end. -/
theorem orBits_run_from (old bm pb : List Nat) (i n : Nat)
    (hpb : pb = Vhd.orBits old bm i)
    (hset : ∀ j, i ≤ j → j < i + n → Vhd.bitmapTest bm j = true) :
    (List.range' i n).foldl Vhd.bitmapSet pb = Vhd.orBits old bm (i + n) := by
  rw [hpb]
  exact orBits_run old bm n i hset

/-- Helper: with every bit below the bound clear, the expected coalesced
content is the disk's own content. -/
theorem coalesceMid_clear_eval (d : Vhd.DiskFile) (base bmS : Nat) (bm dt : List Nat)
    (k a : Nat) (hclear : ∀ j, j < k → Vhd.bitmapTest bm j = false) :
    Vhd.coalesceMid d base bmS bm dt k a = d.data a := by
  unfold Vhd.coalesceMid
  by_cases h1 : base ≤ a ∧ a < base + bmS
  · rw [if_pos h1, orBits_clear _ _ k hclear, readBytes_getD _ _ _ _ (by omega)]
    congr 1
    omega
  · rw [if_neg h1, if_neg ?hneg]
    case hneg =>
      intro hcon
      rw [hclear _ hcon.2.1] at hcon
      exact Bool.false_ne_true hcon.2.2

/-- Helper: `readBlock` stamps the requested block id into its result. -/
theorem readBlock_id (cs : Vhd.VhdState) (cd : Vhd.DiskFile) (blockId : Nat) (b : Bool)
    (blk : Vhd.BlockData) (h : Vhd.readBlock cs cd blockId b = Except.ok blk) :
    blk.id = blockId := by
  unfold Vhd.readBlock at h
  simp only [Except.map] at h
  split at h
  · exact Except.noConfusion h
  · split at h
    · exact Except.noConfusion h
    · split at h
      · exact (congrArg (fun t => t.id) (Except.ok.inj h)).symm
      · exact (congrArg (fun t => t.id) (Except.ok.inj h)).symm

/-- Helper: on an all-set bitmap the run loop performs a single
`writeEntireBlock` of the child's whole buffer. -/
theorem coalesceRuns_full_run (s : Vhd.VhdState) (d : Vhd.DiskFile) (blk : Vhd.BlockData)
    (blockId spbC addr : Nat)
    (hid : blk.id = blockId)
    (haddr : Vhd.getBatEntry s.blockTable blockId = addr)
    (hne : addr ≠ Vhd.BLOCK_UNUSED)
    (hpos : 0 < spbC)
    (hall : ∀ j, j < spbC → Vhd.bitmapTest blk.bitmap j = true) :
    Vhd.coalesceRuns s d blk blockId spbC none (spbC + 1) 0 =
      Except.ok (s, Vhd.fileWrite d (Vhd.sectorsToBytes addr) (blk.buffer.getD [])) := by
  have hweb : Vhd.writeEntireBlock s d blk.id (blk.buffer.getD []) =
      Except.ok (s, Vhd.fileWrite d (Vhd.sectorsToBytes addr) (blk.buffer.getD [])) := by
    unfold Vhd.writeEntireBlock
    simp only [Bind.bind, Except.bind, hid, haddr]
    rw [if_neg hne]
  have hrl : Vhd.runLenAux blk.bitmap spbC (spbC - (0 + 1)) (0 + 1) = spbC - 1 :=
    runLenAux_full blk.bitmap spbC (spbC - (0 + 1)) (0 + 1) (by omega) (by omega)
      (fun j h1 h2 => hall j h2)
  simp only [Vhd.coalesceRuns, Vhd.runLen]
  rw [if_pos hpos, if_pos (hall 0 hpos), hrl]
  rw [if_pos (show True ∧ 0 + 1 + (spbC - 1) = spbC from ⟨trivial, by omega⟩)]
  simp only [Bind.bind, Except.bind, hweb]
  exact coalesceRuns_exit s _ blk blockId spbC none spbC _ (by omega) (by omega)

/-- Helper: run-loop invariant of `coalesceBlock` over an allocated parent
block, for a child bitmap that is not one full-block run: starting at
sector `i` with the coalesced content of the first `i` sectors on disk and
a correctly cached parent bitmap, the loop ends in the unchanged state and
the coalesced content of the whole block. -/
theorem coalesceRuns_alloc_inv (s : Vhd.VhdState) (blk : Vhd.BlockData) (blockId spbC : Nat)
    (d0 : Vhd.DiskFile) (addr : Nat)
    (hid : blk.id = blockId)
    (haddr : Vhd.getBatEntry s.blockTable blockId = addr)
    (hne : addr ≠ Vhd.BLOCK_UNUSED)
    (hsize : Vhd.sectorsToBytes addr + Vhd.bitmapSize s.header ≤ d0.size)
    (hdtlen : (blk.data.getD []).length = Vhd.sectorsToBytes spbC)
    (hnotfull : ¬ ∀ j, j < spbC → Vhd.bitmapTest blk.bitmap j = true) :
    ∀ (counter i : Nat) (di : Vhd.DiskFile) (pbo : Option (List Nat)),
      spbC + 1 ≤ counter + i → (i ≤ spbC ∨ 1 ≤ counter) →
      (∀ a, di.data a = Vhd.coalesceMid d0 (Vhd.sectorsToBytes addr)
        (Vhd.bitmapSize s.header) blk.bitmap (blk.data.getD []) (min i spbC) a) →
      ((pbo = none ∧ di = d0 ∧ ∀ j, j < i → Vhd.bitmapTest blk.bitmap j = false) ∨
        (∃ pbc, pbo = some pbc ∧
          pbc = Vhd.orBits (Vhd.readBytes d0 (Vhd.sectorsToBytes addr)
            (Vhd.bitmapSize s.header)) blk.bitmap (min i spbC) ∧
          pbc.length = Vhd.bitmapSize s.header)) →
      ∃ dend, Vhd.coalesceRuns s di blk blockId spbC pbo counter i = Except.ok (s, dend) ∧
        ∀ a, dend.data a = Vhd.coalesceMid d0 (Vhd.sectorsToBytes addr)
          (Vhd.bitmapSize s.header) blk.bitmap (blk.data.getD []) spbC a := by
  intro counter
  induction counter with
  | zero =>
    intro i di pbo hb1 hb2 _ _
    exfalso
    omega
  | succ n ih =>
    intro i di pbo hb1 hb2 hInv hcache
    by_cases hi : i < spbC
    · have hInvi : ∀ a, di.data a = Vhd.coalesceMid d0 (Vhd.sectorsToBytes addr)
          (Vhd.bitmapSize s.header) blk.bitmap (blk.data.getD []) i a := by
        intro a
        have h1 := hInv a
        rwa [min_eq_left (by omega : i ≤ spbC)] at h1
      cases hbit : Vhd.bitmapTest blk.bitmap i with
      | false =>
        have hstep : Vhd.coalesceRuns s di blk blockId spbC pbo (n + 1) i =
            Vhd.coalesceRuns s di blk blockId spbC pbo n (i + 1) := by
          simp only [Vhd.coalesceRuns]
          rw [if_pos hi, if_neg (by rw [hbit]; exact Bool.false_ne_true)]
        have hInv2 : ∀ a, di.data a = Vhd.coalesceMid d0 (Vhd.sectorsToBytes addr)
            (Vhd.bitmapSize s.header) blk.bitmap (blk.data.getD []) (min (i + 1) spbC) a := by
          intro a
          rw [min_eq_left (by omega : i + 1 ≤ spbC),
            coalesceMid_clear_succ _ _ _ _ _ i a hbit]
          exact hInvi a
        have hcache2 : (pbo = none ∧ di = d0 ∧
              ∀ j, j < i + 1 → Vhd.bitmapTest blk.bitmap j = false) ∨
            (∃ pbc, pbo = some pbc ∧
              pbc = Vhd.orBits (Vhd.readBytes d0 (Vhd.sectorsToBytes addr)
                (Vhd.bitmapSize s.header)) blk.bitmap (min (i + 1) spbC) ∧
              pbc.length = Vhd.bitmapSize s.header) := by
          rcases hcache with ⟨h1, h2, h3⟩ | ⟨pbc, h1, h2, h3⟩
          · refine Or.inl ⟨h1, h2, ?_⟩
            intro j hj
            by_cases hji : j = i
            · rw [hji]; exact hbit
            · exact h3 j (by omega)
          · refine Or.inr ⟨pbc, h1, ?_, h3⟩
            rw [h2, min_eq_left (by omega : i ≤ spbC), min_eq_left (by omega : i + 1 ≤ spbC),
              orBits_succ, if_neg (by rw [hbit]; exact Bool.false_ne_true)]
        obtain ⟨dend, hrun, hpt⟩ := ih (i + 1) di pbo (by omega) (Or.inl (by omega)) hInv2 hcache2
        exact ⟨dend, by rw [hstep]; exact hrun, hpt⟩
      | true =>
        have hRle : i + 1 + Vhd.runLenAux blk.bitmap spbC (spbC - (i + 1)) (i + 1) ≤ spbC :=
          runLenAux_le blk.bitmap spbC (spbC - (i + 1)) (i + 1) (by omega)
        have hRset : ∀ j, i ≤ j →
            j < i + 1 + Vhd.runLenAux blk.bitmap spbC (spbC - (i + 1)) (i + 1) →
            Vhd.bitmapTest blk.bitmap j = true := by
          intro j h1 h2
          by_cases hji : j = i
          · rw [hji]; exact hbit
          · exact runLenAux_set blk.bitmap spbC (spbC - (i + 1)) (i + 1) j (by omega) (by omega)
        have hRend := runLenAux_end blk.bitmap spbC (spbC - (i + 1)) (i + 1) (by omega) (by omega)
        by_cases hfull : i = 0 ∧
            i + 1 + Vhd.runLenAux blk.bitmap spbC (spbC - (i + 1)) (i + 1) = spbC
        · exfalso
          obtain ⟨h0, hEsp⟩ := hfull
          exact hnotfull (fun j hj => hRset j (by omega) (by omega))
        · simp only [Vhd.coalesceRuns, Vhd.runLen]
          rw [if_pos hi, if_pos hbit, if_neg hfull]
          generalize hE : i + 1 + Vhd.runLenAux blk.bitmap spbC (spbC - (i + 1)) (i + 1) = E
          rw [hE] at hRle hRset hRend
          rcases hcache with ⟨hpbo, hdi, hclear⟩ | ⟨pbc, hpbo, hpbc, hpbclen⟩
          · subst hpbo
            rw [hdi] at hInvi ⊢
            rw [readBlock_bitmap_alloc s d0 blockId addr haddr hne hsize]
            simp only [Bind.bind, Except.bind, Except.map]
            have hpbeq : Vhd.readBytes d0 (Vhd.sectorsToBytes addr)
                (Vhd.bitmapSize s.header) =
                Vhd.orBits (Vhd.readBytes d0 (Vhd.sectorsToBytes addr)
                  (Vhd.bitmapSize s.header)) blk.bitmap i :=
              (orBits_clear _ _ i hclear).symm
            have hfold : (List.range' i (E - i)).foldl Vhd.bitmapSet
                (Vhd.readBytes d0 (Vhd.sectorsToBytes addr) (Vhd.bitmapSize s.header)) =
                Vhd.orBits (Vhd.readBytes d0 (Vhd.sectorsToBytes addr)
                  (Vhd.bitmapSize s.header)) blk.bitmap E := by
              rw [orBits_run_from _ blk.bitmap _ i (E - i) hpbeq
                (fun j h1 h2 => hRset j h1 (by omega))]
              congr 1
              omega
            have hfoldlen : ((List.range' i (E - i)).foldl Vhd.bitmapSet
                (Vhd.readBytes d0 (Vhd.sectorsToBytes addr)
                  (Vhd.bitmapSize s.header))).length = Vhd.bitmapSize s.header := by
              rw [foldl_bitmapSet_length]
              exact readBytes_length _ _ _
            rw [writeBlockSectors_alloc s d0 blk.id (blk.data.getD []) i E addr
              (Vhd.readBytes d0 (Vhd.sectorsToBytes addr) (Vhd.bitmapSize s.header))
              (by rw [hid]; exact haddr) hne hfoldlen]
            simp only [Bind.bind, Except.bind, Bool.false_eq_true, if_false]
            have hInvE : ∀ a, (Vhd.fileWrite
                (Vhd.fileWrite d0 (Vhd.sectorsToBytes addr)
                  ((List.range' i (E - i)).foldl Vhd.bitmapSet
                    (Vhd.readBytes d0 (Vhd.sectorsToBytes addr)
                      (Vhd.bitmapSize s.header))))
                (Vhd.sectorsToBytes (addr + Vhd.sectorsOfBitmap s.header + i))
                (Vhd.listSlice (blk.data.getD []) (Vhd.sectorsToBytes i)
                  (Vhd.sectorsToBytes E))).data a =
                Vhd.coalesceMid d0 (Vhd.sectorsToBytes addr) (Vhd.bitmapSize s.header)
                  blk.bitmap (blk.data.getD []) E a := by
              refine coalesceMid_write_step d0 d0 (Vhd.sectorsToBytes addr)
                (Vhd.bitmapSize s.header) blk.bitmap (blk.data.getD []) _ i E spbC _
                ?_ hInvi hfold hfoldlen (fun j h1 h2 => hRset j h1 h2) (by omega) hRle
                ?_ _ ?_ ?_
              · simp only [Vhd.sectorsToBytes, Vhd.SECTOR_SIZE, Vhd.bitmapSize,
                  Vhd.sectorsOfBitmap]
                ring
              · rw [hdtlen]
                simp only [Vhd.sectorsToBytes, Vhd.SECTOR_SIZE]
                ring
              · rw [listSlice_length_of_le _ _ _ (by
                  rw [hdtlen]
                  simp only [Vhd.sectorsToBytes, Vhd.SECTOR_SIZE]
                  omega)]
                simp only [Vhd.sectorsToBytes, Vhd.SECTOR_SIZE]
                omega
              · intro k hk
                rw [listSlice_getD _ _ _ k (by
                  simp only [Vhd.sectorsToBytes, Vhd.SECTOR_SIZE]
                  omega)]
                have hidx : Vhd.sectorsToBytes i + k = 512 * i + k := by
                  simp only [Vhd.sectorsToBytes, Vhd.SECTOR_SIZE]
                  omega
                rw [hidx]
            have hInvE1 : ∀ a, (Vhd.fileWrite
                (Vhd.fileWrite d0 (Vhd.sectorsToBytes addr)
                  ((List.range' i (E - i)).foldl Vhd.bitmapSet
                    (Vhd.readBytes d0 (Vhd.sectorsToBytes addr)
                      (Vhd.bitmapSize s.header))))
                (Vhd.sectorsToBytes (addr + Vhd.sectorsOfBitmap s.header + i))
                (Vhd.listSlice (blk.data.getD []) (Vhd.sectorsToBytes i)
                  (Vhd.sectorsToBytes E))).data a =
                Vhd.coalesceMid d0 (Vhd.sectorsToBytes addr) (Vhd.bitmapSize s.header)
                  blk.bitmap (blk.data.getD []) (min (E + 1) spbC) a := by
              intro a
              by_cases hEsp : E = spbC
              · rw [min_eq_right (by omega), ← hEsp]
                exact hInvE a
              · have hEclear : Vhd.bitmapTest blk.bitmap E = false := by
                  rcases hRend with h1 | h1
                  · exact absurd h1 hEsp
                  · exact h1
                rw [min_eq_left (by omega), coalesceMid_clear_succ _ _ _ _ _ E a hEclear]
                exact hInvE a
            have hpb2min : (List.range' i (E - i)).foldl Vhd.bitmapSet
                (Vhd.readBytes d0 (Vhd.sectorsToBytes addr) (Vhd.bitmapSize s.header)) =
                Vhd.orBits (Vhd.readBytes d0 (Vhd.sectorsToBytes addr)
                  (Vhd.bitmapSize s.header)) blk.bitmap (min (E + 1) spbC) := by
              rw [hfold]
              by_cases hEsp : E = spbC
              · rw [min_eq_right (by omega), hEsp]
              · have hEclear : Vhd.bitmapTest blk.bitmap E = false := by
                  rcases hRend with h1 | h1
                  · exact absurd h1 hEsp
                  · exact h1
                rw [min_eq_left (by omega), orBits_succ,
                  if_neg (by rw [hEclear]; exact Bool.false_ne_true)]
            obtain ⟨dend, hrun, hpt⟩ := ih (E + 1) _ _ (by omega) (Or.inr (by omega))
              hInvE1 (Or.inr ⟨_, rfl, hpb2min, hfoldlen⟩)
            exact ⟨dend, hrun, hpt⟩
          · subst hpbo
            simp only [Bind.bind, Except.bind]
            have hpbeq : pbc = Vhd.orBits (Vhd.readBytes d0 (Vhd.sectorsToBytes addr)
                (Vhd.bitmapSize s.header)) blk.bitmap i := by
              rwa [min_eq_left (by omega : i ≤ spbC)] at hpbc
            have hfold : (List.range' i (E - i)).foldl Vhd.bitmapSet pbc =
                Vhd.orBits (Vhd.readBytes d0 (Vhd.sectorsToBytes addr)
                  (Vhd.bitmapSize s.header)) blk.bitmap E := by
              rw [orBits_run_from _ blk.bitmap _ i (E - i) hpbeq
                (fun j h1 h2 => hRset j h1 (by omega))]
              congr 1
              omega
            have hfoldlen : ((List.range' i (E - i)).foldl Vhd.bitmapSet pbc).length =
                Vhd.bitmapSize s.header := by
              rw [foldl_bitmapSet_length]
              exact hpbclen
            rw [writeBlockSectors_alloc s di blk.id (blk.data.getD []) i E addr pbc
              (by rw [hid]; exact haddr) hne hfoldlen]
            simp only [Bind.bind, Except.bind, Bool.false_eq_true, if_false]
            have hInvE : ∀ a, (Vhd.fileWrite
                (Vhd.fileWrite di (Vhd.sectorsToBytes addr)
                  ((List.range' i (E - i)).foldl Vhd.bitmapSet pbc))
                (Vhd.sectorsToBytes (addr + Vhd.sectorsOfBitmap s.header + i))
                (Vhd.listSlice (blk.data.getD []) (Vhd.sectorsToBytes i)
                  (Vhd.sectorsToBytes E))).data a =
                Vhd.coalesceMid d0 (Vhd.sectorsToBytes addr) (Vhd.bitmapSize s.header)
                  blk.bitmap (blk.data.getD []) E a := by
              refine coalesceMid_write_step d0 di (Vhd.sectorsToBytes addr)
                (Vhd.bitmapSize s.header) blk.bitmap (blk.data.getD []) _ i E spbC _
                ?_ hInvi hfold hfoldlen (fun j h1 h2 => hRset j h1 h2) (by omega) hRle
                ?_ _ ?_ ?_
              · simp only [Vhd.sectorsToBytes, Vhd.SECTOR_SIZE, Vhd.bitmapSize,
                  Vhd.sectorsOfBitmap]
                ring
              · rw [hdtlen]
                simp only [Vhd.sectorsToBytes, Vhd.SECTOR_SIZE]
                ring
              · rw [listSlice_length_of_le _ _ _ (by
                  rw [hdtlen]
                  simp only [Vhd.sectorsToBytes, Vhd.SECTOR_SIZE]
                  omega)]
                simp only [Vhd.sectorsToBytes, Vhd.SECTOR_SIZE]
                omega
              · intro k hk
                rw [listSlice_getD _ _ _ k (by
                  simp only [Vhd.sectorsToBytes, Vhd.SECTOR_SIZE]
                  omega)]
                have hidx : Vhd.sectorsToBytes i + k = 512 * i + k := by
                  simp only [Vhd.sectorsToBytes, Vhd.SECTOR_SIZE]
                  omega
                rw [hidx]
            have hInvE1 : ∀ a, (Vhd.fileWrite
                (Vhd.fileWrite di (Vhd.sectorsToBytes addr)
                  ((List.range' i (E - i)).foldl Vhd.bitmapSet pbc))
                (Vhd.sectorsToBytes (addr + Vhd.sectorsOfBitmap s.header + i))
                (Vhd.listSlice (blk.data.getD []) (Vhd.sectorsToBytes i)
                  (Vhd.sectorsToBytes E))).data a =
                Vhd.coalesceMid d0 (Vhd.sectorsToBytes addr) (Vhd.bitmapSize s.header)
                  blk.bitmap (blk.data.getD []) (min (E + 1) spbC) a := by
              intro a
              by_cases hEsp : E = spbC
              · rw [min_eq_right (by omega), ← hEsp]
                exact hInvE a
              · have hEclear : Vhd.bitmapTest blk.bitmap E = false := by
                  rcases hRend with h1 | h1
                  · exact absurd h1 hEsp
                  · exact h1
                rw [min_eq_left (by omega), coalesceMid_clear_succ _ _ _ _ _ E a hEclear]
                exact hInvE a
            have hpb2min : (List.range' i (E - i)).foldl Vhd.bitmapSet pbc =
                Vhd.orBits (Vhd.readBytes d0 (Vhd.sectorsToBytes addr)
                  (Vhd.bitmapSize s.header)) blk.bitmap (min (E + 1) spbC) := by
              rw [hfold]
              by_cases hEsp : E = spbC
              · rw [min_eq_right (by omega), hEsp]
              · have hEclear : Vhd.bitmapTest blk.bitmap E = false := by
                  rcases hRend with h1 | h1
                  · exact absurd h1 hEsp
                  · exact h1
                rw [min_eq_left (by omega), orBits_succ,
                  if_neg (by rw [hEclear]; exact Bool.false_ne_true)]
            obtain ⟨dend, hrun, hpt⟩ := ih (E + 1) _ _ (by omega) (Or.inr (by omega))
              hInvE1 (Or.inr ⟨_, rfl, hpb2min, hfoldlen⟩)
            exact ⟨dend, hrun, hpt⟩
    · refine ⟨di, ?_, ?_⟩
      · simp only [Vhd.coalesceRuns]
        rw [if_neg hi]
      · intro a
        have h1 := hInv a
        rwa [min_eq_right (by omega : spbC ≤ i)] at h1

/-- Claim C3 (amended): for a child block read as `blk` and a parent whose
BAT slot for the block is allocated (and whose image can hold the block's
bitmap), `coalesceBlock` succeeds, leaves the parent state unchanged and
returns the child data length; the processing is by maximal runs of set
bits: with no set bit nothing is written; with the bitmap one full-block
run the whole child buffer is written at the block address via
`writeEntireBlock`; otherwise the parent's bitmap for the block is read
lazily once, each run ORs its bits into it, writes it back, and writes only
the run's data sectors, so the final disk content is exactly the
`coalesceMid` mix of OR-ed bitmap, child data at set sectors, and untouched
bytes elsewhere. Sectors with clear child bits are left unchanged. The
allocated-parent hypothesis is required: with `BLOCK_UNUSED` in the
parent's slot, a partial run fails (see the counterexample). -/
theorem coalesceBlock_allocated_runs (s : Vhd.VhdState) (d : Vhd.DiskFile)
    (cs : Vhd.VhdState) (cd : Vhd.DiskFile) (blockId addr : Nat) (blk : Vhd.BlockData)
    (hread : Vhd.readBlock cs cd blockId false = Except.ok blk)
    (haddr : Vhd.getBatEntry s.blockTable blockId = addr)
    (hne : addr ≠ Vhd.BLOCK_UNUSED)
    (hsize : Vhd.sectorsToBytes addr + Vhd.bitmapSize s.header ≤ d.size)
    (hdtlen : (blk.data.getD []).length =
      Vhd.sectorsToBytes (Vhd.sectorsPerBlock cs.header)) :
    ∃ d2, Vhd.coalesceBlock s d cs cd blockId =
        Except.ok (s, d2, (blk.data.getD []).length) ∧
      ((∀ j, j < Vhd.sectorsPerBlock cs.header → Vhd.bitmapTest blk.bitmap j = false) →
        ∀ a, d2.data a = d.data a) ∧
      ((∀ j, j < Vhd.sectorsPerBlock cs.header → Vhd.bitmapTest blk.bitmap j = true) →
        0 < Vhd.sectorsPerBlock cs.header →
        d2 = Vhd.fileWrite d (Vhd.sectorsToBytes addr) (blk.buffer.getD [])) ∧
      ((¬ ∀ j, j < Vhd.sectorsPerBlock cs.header → Vhd.bitmapTest blk.bitmap j = true) →
        ∀ a, d2.data a = Vhd.coalesceMid d (Vhd.sectorsToBytes addr)
          (Vhd.bitmapSize s.header) blk.bitmap (blk.data.getD [])
          (Vhd.sectorsPerBlock cs.header) a) := by
  have hid : blk.id = blockId := readBlock_id cs cd blockId false blk hread
  unfold Vhd.coalesceBlock
  rw [hread]
  simp only [Bind.bind, Except.bind]
  by_cases hall : ∀ j, j < Vhd.sectorsPerBlock cs.header →
      Vhd.bitmapTest blk.bitmap j = true
  · by_cases hpos : 0 < Vhd.sectorsPerBlock cs.header
    · rw [coalesceRuns_full_run s d blk blockId (Vhd.sectorsPerBlock cs.header) addr
        hid haddr hne hpos hall]
      refine ⟨_, rfl, ?_, ?_, ?_⟩
      · intro hclear
        exfalso
        have h1 := hclear 0 hpos
        rw [hall 0 hpos] at h1
        exact Bool.noConfusion h1
      · intro _ _
        rfl
      · intro hnf
        exact absurd hall hnf
    · rw [coalesceRuns_exit s d blk blockId (Vhd.sectorsPerBlock cs.header) none
        (Vhd.sectorsPerBlock cs.header + 1) 0 (by omega) (by omega)]
      refine ⟨d, rfl, ?_, ?_, ?_⟩
      · intro _ a
        rfl
      · intro _ hpos2
        exact absurd hpos2 hpos
      · intro hnf
        exact absurd hall hnf
  · have hInv0 : ∀ a, d.data a = Vhd.coalesceMid d (Vhd.sectorsToBytes addr)
        (Vhd.bitmapSize s.header) blk.bitmap (blk.data.getD [])
        (min 0 (Vhd.sectorsPerBlock cs.header)) a := by
      intro a
      rw [min_eq_left (Nat.zero_le _),
        coalesceMid_clear_eval d _ _ _ _ 0 a (fun j hj => absurd hj (by omega))]
    obtain ⟨dend, hrun, hpt⟩ := coalesceRuns_alloc_inv s blk blockId
      (Vhd.sectorsPerBlock cs.header) d addr hid haddr hne hsize hdtlen hall
      (Vhd.sectorsPerBlock cs.header + 1) 0 d none (by omega) (Or.inl (by omega))
      hInv0 (Or.inl ⟨rfl, rfl, fun j hj => absurd hj (by omega)⟩)
    rw [hrun]
    refine ⟨dend, rfl, ?_, ?_, ?_⟩
    · intro hclear a
      rw [hpt a, coalesceMid_clear_eval d _ _ _ _ _ a hclear]
    · intro hall2 _
      exact absurd hall2 hall
    · intro _
      exact hpt

/-- Witness for claim C3 (amended) at the partial child block — sector 0
set, sector 1 clear — over the allocated parent block at sector address 4. -/
theorem coalesceBlock_allocated_runs_witness :
    ∃ d2, Vhd.coalesceBlock Ex.parentAlloc Ex.parentAllocDisk Ex.childState
        Ex.childDiskPartial 0 =
        Except.ok (Ex.parentAlloc, d2, (Ex.childBlkPartial.data.getD []).length) ∧
      ((∀ j, j < Vhd.sectorsPerBlock Ex.childState.header →
          Vhd.bitmapTest Ex.childBlkPartial.bitmap j = false) →
        ∀ a, d2.data a = Ex.parentAllocDisk.data a) ∧
      ((∀ j, j < Vhd.sectorsPerBlock Ex.childState.header →
          Vhd.bitmapTest Ex.childBlkPartial.bitmap j = true) →
        0 < Vhd.sectorsPerBlock Ex.childState.header →
        d2 = Vhd.fileWrite Ex.parentAllocDisk (Vhd.sectorsToBytes 4)
          (Ex.childBlkPartial.buffer.getD [])) ∧
      ((¬ ∀ j, j < Vhd.sectorsPerBlock Ex.childState.header →
          Vhd.bitmapTest Ex.childBlkPartial.bitmap j = true) →
        ∀ a, d2.data a = Vhd.coalesceMid Ex.parentAllocDisk (Vhd.sectorsToBytes 4)
          (Vhd.bitmapSize Ex.parentAlloc.header) Ex.childBlkPartial.bitmap
          (Ex.childBlkPartial.data.getD [])
          (Vhd.sectorsPerBlock Ex.childState.header) a) :=
  coalesceBlock_allocated_runs Ex.parentAlloc Ex.parentAllocDisk Ex.childState
    Ex.childDiskPartial 0 4 Ex.childBlkPartial (by rfl) (by rfl) (by decide) (by decide)
    (by rfl)
